import Mathlib

/-!
Verification development for the CodeKG two-stage pipeline:
(a) reflective API extraction (src/API_Parser/extract_package_api.py), and
(b) knowledge-graph construction (src/JSON2KG/build_kg.py).

The Python code is shallowly embedded: Python strings are Lean `String`s, with
the Python primitives (split, startswith, replace, lower, strip, slicing)
re-implemented on the underlying character lists so that every definition is
executable by the kernel; Python sets are `Finset String`; Python dicts used as
per-category dedup tables are association lists (insertion prepends, lookup
takes the first hit, matching Python's update-in-place semantics under lookup);
the rdflib graph is a `Finset` of triples; the Neo4j store is a pair of
`Finset`s of node keys and relationship keys, since py2neo's merge matches on
primary label plus key property.
-/

/-! ## Python string primitives -/

/-- Helper for `pySplit`: splits a character list on a separator character,
with Python `str.split(sep)` semantics (the result is never empty, and empty
fields are kept). -/
def splitCharAux (sep : Char) : List Char → List Char → List String
  | [], acc => [String.mk acc.reverse]
  | c :: rest, acc =>
      if c = sep then String.mk acc.reverse :: splitCharAux sep rest []
      else splitCharAux sep rest (c :: acc)

/-- Python `s.split(sep)` for a one-character separator `sep`. -/
def pySplit (s : String) (sep : Char) : List String := splitCharAux sep s.data []

/-- Python `s.startswith(pre)`. -/
def pyStartsWith (s pre : String) : Bool := pre.data.isPrefixOf s.data

/-- Python `s[:n]` for a nonnegative `n`. -/
def pyTake (s : String) (n : Nat) : String := String.mk (s.data.take n)

/-- Python `str.replace(c, d)` for a one-character pattern `c`: every
occurrence of the character is replaced. -/
def pyReplaceChar (s : String) (c d : Char) : String :=
  String.mk (s.data.map fun x => if x = c then d else x)

/-- Python `s.lower()` (ASCII case folding, which covers the identifiers and
docstring keywords this code applies it to). -/
def pyToLower (s : String) : String := String.mk (s.data.map Char.toLower)

/-- Membership test of `pat` as a contiguous substring, Python `pat in s`. -/
def hasSubstring (pat : List Char) : List Char → Bool
  | [] => pat.isEmpty
  | c :: rest => pat.isPrefixOf (c :: rest) || hasSubstring pat rest

/-- Python whitespace test for `str.strip()` (the ASCII whitespace actually
occurring in docstrings). -/
def isPySpace (c : Char) : Bool := c = ' ' || c = '\t' || c = '\n' || c = '\r'

/-- Python `s.strip()`. -/
def pyStrip (s : String) : String :=
  String.mk (((s.data.dropWhile isPySpace).reverse.dropWhile isPySpace).reverse)

/-- Python emptiness of a string (`not s`). -/
def pyIsEmptyStr (s : String) : Bool := s.data.isEmpty

/-- Python truthiness of an optional string field: `None` and `""` are falsy. -/
def truthy : Option String → Bool
  | none => false
  | some s => !(pyIsEmptyStr s)

/-- Python `sep.join(xs)`. -/
def pyJoin (sep : String) : List String → String
  | [] => ""
  | [x] => x
  | x :: y :: xs => x ++ sep ++ pyJoin sep (y :: xs)

/-- Python `xs[0]` for the (always nonempty) result of a split. -/
def pyHead (xs : List String) : String := xs.headD ""

/-- Python `xs[-1]` for the (always nonempty) result of a split. -/
def pyLast (xs : List String) : String := xs.getLastD ""

/-! ## Extractor data model (src/API_Parser/extract_package_api.py)

A reachable Python runtime object is modelled by `PyObj`: modules and classes
carry their `__name__` and their `inspect.getmembers` list (in `getmembers`
order, which is sorted by member name; no claim depends on the ordering), and
every object carries the reflective metadata that `build_api_item` reads.
Since `inspect.signature(obj)` is called once for the signature text and once
for the parameter table and both fail or succeed together, it is modelled as
one optional pair `siginfo = (text, parameters)`; `source` is the result of
`inspect.getsource` (`none` when it raises); `module` is
`getattr(obj, '__module__', None)`; `file` is the relative path computed from
`inspect.getfile` (`none` when it raises). `inspect.getmembers` of a class
includes inherited attributes, so an inherited method simply appears in the
member list of every class exposing it. -/

/-- Reflective metadata of one Python object, as read by `build_api_item`. -/
structure ObjInfo where
  doc : String
  source : Option String
  siginfo : Option (String × List (String × Bool))
  module : Option String
  file : Option String
deriving DecidableEq

/-- A Python runtime object reachable by the traversal. -/
inductive PyObj where
  | module (name : String) (info : ObjInfo) (members : List (String × PyObj))
  | cls (name : String) (info : ObjInfo) (members : List (String × PyObj))
  | func (info : ObjInfo)
  | other (info : ObjInfo)

/-- Reflective metadata carried by an object. -/
def PyObj.info : PyObj → ObjInfo
  | .module _ i _ => i
  | .cls _ i _ => i
  | .func i => i
  | .other i => i

/-- Python `getattr(o, "__name__", dflt)` for the objects whose name the
source reads (modules and classes). -/
def pyGetName (o : PyObj) (dflt : String) : String :=
  match o with
  | .module n _ _ => n
  | .cls n _ _ => n
  | _ => dflt

/-- One APIRecord, the dictionary built by `build_api_item` (lines 190-204).
The `class` key is called `cls` because `class` is reserved in Lean; the
parameter table keeps only the `is_optional` flag since the `description`
entry is the constant `None`. -/
structure ApiRec where
  _id : String
  doc : String
  is_deprecated : Bool
  source_code : Option String
  signature : String
  parameters : List (String × Bool)
  returns_doc : Option String
  raise_doc : Option String
  type : String
  cls : Option String
  from_init : Bool
  module : Option String
  file : Option String
deriving DecidableEq

/-- Line 130-134: whether a docstring contains the word "deprecated",
case-insensitively. -/
def is_deprecated_doc (doc : String) : Bool :=
  !(pyIsEmptyStr doc) && hasSubstring "deprecated".data (pyToLower doc).data

/-- Lines 136-144: collect the docstring lines containing one of the keywords
(case-insensitively), stripped and re-joined; `none` when the doc is empty or
no line matches. `splitlines` is modelled as splitting on the newline
character. -/
def extract_doc_section (doc : String) (keywords : List String) : Option String :=
  if pyIsEmptyStr doc then none
  else
    let lines := pySplit doc '\n'
    let matched := (lines.filter
      (fun line => keywords.any (fun k => hasSubstring k.data (pyToLower line).data))).map pyStrip
    if matched.isEmpty then none else some (pyJoin "\n" matched)

/-- Lines 146-204: build one APIRecord for `obj` discovered under the dotted
identifier `full_id`, with `parent_class` set exactly when the object was
found as a member of a class. Signature and source retrieval are best-effort:
a failed `inspect.signature` yields the literal `"()"` and an empty parameter
table, a failed `inspect.getsource` yields an absent source. `from_init` is
initialised to `False`. The `class` field is `parent_class.__name__`. -/
def build_api_item (full_id : String) (obj : PyObj) (parent_class : Option PyObj) : ApiRec :=
  let doc := obj.info.doc
  let obj_type :=
    match obj with
    | .cls _ _ _ => "class"
    | .func _ => (match parent_class with | some _ => "member_function" | none => "function")
    | .module _ _ _ => "module"
    | .other _ => "unknown"
  { _id := full_id
    doc := doc
    is_deprecated := is_deprecated_doc doc
    source_code := obj.info.source
    signature := (match obj.info.siginfo with | some p => p.1 | none => "()")
    parameters :=
      (if obj_type = "function" ∨ obj_type = "member_function" then
        (match obj.info.siginfo with | some p => p.2 | none => [])
      else [])
    returns_doc := extract_doc_section doc [":return", ":returns"]
    raise_doc := extract_doc_section doc [":raise", ":raises"]
    type := obj_type
    cls := parent_class.map (fun p => pyGetName p "")
    from_init := false
    module := obj.info.module
    file := obj.info.file }

mutual

/-- Lines 206-236: recursively walk a module, collecting one record for the
module itself, every class member (plus a member_function record for every
function found among the class's members, with the visited class as
`parent_class`), every plain function member, and recursing into member
modules whose `__name__` starts with the first dot-segment of the current
module's name. The visited set of module names is threaded through the
recursion (the Python set is mutated in place and shared). The generic last
arm covers non-module arguments, which the source call sites never produce. -/
def traverse_module (m : PyObj) (visited : List String) : List ApiRec × List String :=
  match m with
  | PyObj.module name info members =>
      if name ∈ visited then ([], visited)
      else
        let p := traverse_members name members (name :: visited)
        (build_api_item name (PyObj.module name info members) none :: p.1, p.2)
  | PyObj.cls name info members =>
      if name ∈ visited then ([], visited)
      else
        let p := traverse_members name members (name :: visited)
        (build_api_item name (PyObj.cls name info members) none :: p.1, p.2)
  | m =>
      let n := pyGetName m "unknown"
      if n ∈ visited then ([], visited)
      else ([build_api_item n m none], n :: visited)

/-- The member loop of `traverse_module` (lines 222-235), processing the
members of the module named `modName` in order. A member module is recursed
into exactly when its `__name__` starts with `modName.split(".")[0]`
(line 225, a string-prefix test). A class member contributes its own record
followed by one member_function record per function in its member list, with
the class itself as `parent_class` (lines 227-232). A plain function member
contributes one record (lines 233-234); any other member is skipped. -/
def traverse_members (modName : String) (members : List (String × PyObj)) (visited : List String) :
    List ApiRec × List String :=
  match members with
  | [] => ([], visited)
  | (n, member) :: rest =>
    let full_id := modName ++ "." ++ n
    match member with
    | PyObj.module mn mi mms =>
        if pyStartsWith mn (pyHead (pySplit modName '.')) then
          let p1 := traverse_module (PyObj.module mn mi mms) visited
          let p2 := traverse_members modName rest p1.2
          (p1.1 ++ p2.1, p2.2)
        else traverse_members modName rest visited
    | PyObj.cls cn ci cms =>
        let classItem := build_api_item full_id (PyObj.cls cn ci cms) none
        let methodItems := cms.filterMap (fun q =>
          match q.2 with
          | PyObj.func fi => some (build_api_item (full_id ++ "." ++ q.1) (PyObj.func fi)
              (some (PyObj.cls cn ci cms)))
          | _ => none)
        let p2 := traverse_members modName rest visited
        (classItem :: (methodItems ++ p2.1), p2.2)
    | PyObj.func fi =>
        let p2 := traverse_members modName rest visited
        (build_api_item full_id (PyObj.func fi) none :: p2.1, p2.2)
    | PyObj.other _ =>
        traverse_members modName rest visited

end

/-! ## Static entry-point parsing (parse_init_file, lines 93-128)

The fragment of the Python `ast` node language that `parse_init_file`
inspects: top-level `import`, `from-import` (whose `module` is `None` for a
bare relative `from . import x`, and carries no leading dots — they go to the
`level` field), and assignments. An `ast.alias` has the imported `name` and
an optional `asname`. -/

/-- An `ast.alias`: the imported name and the optional `as` alias. -/
structure PyImportAlias where
  name : String
  asname : Option String
deriving DecidableEq

/-- The expression forms `parse_init_file` distinguishes on the right-hand
side of an assignment: string constants, list and tuple literals, anything
else. -/
inductive PyExpr where
  | strc (s : String)
  | listc (elts : List PyExpr)
  | tuplec (elts : List PyExpr)
  | otherc

/-- An assignment target: a plain `ast.Name` or anything else. -/
inductive PyTarget where
  | nameT (id : String)
  | otherT
deriving DecidableEq

/-- A top-level statement of the entry-point file, as far as
`parse_init_file` distinguishes them. -/
inductive PyStmt where
  | imp (names : List PyImportAlias)
  | impFrom (module : Option String) (names : List PyImportAlias)
  | assign (targets : List PyTarget) (value : PyExpr)
  | otherStmt

/-- Processing of one top-level statement by `parse_init_file`
(lines 102-126): `import X` adds the root segment of each imported module
name; `from X import ...` adds the root segment of `X` when it is nonempty
(line 111 skips the empty string) and then adds `alias.name` — the original
imported name — for every alias (line 114); an assignment to the single
target `__all__` whose value is a list or tuple literal adds every string
constant element. -/
def initStep (symbols : Finset String) (node : PyStmt) : Finset String :=
  match node with
  | .imp names => names.foldl (fun s a => insert (pyHead (pySplit a.name '.')) s) symbols
  | .impFrom m names =>
      let s1 := match m with
        | some mstr =>
            let parts := pySplit mstr '.'
            if !(pyIsEmptyStr (pyHead parts)) then insert (pyHead parts) symbols else symbols
        | none => symbols
      names.foldl (fun s a => insert a.name s) s1
  | .assign targets value =>
      match targets with
      | [PyTarget.nameT tgt] =>
          if tgt = "__all__" then
            match value with
            | .listc elts | .tuplec elts =>
                elts.foldl
                  (fun s e => match e with | PyExpr.strc str => insert str s | _ => s) symbols
            | _ => symbols
          else symbols
      | _ => symbols
  | .otherStmt => symbols

/-- Lines 93-128: the static export-symbol set collected from the top-level
statements of the entry-point file. -/
def parse_init_file (body : List PyStmt) : Finset String :=
  body.foldl initStep ∅

/-- The runtime value of `getattr(main_module, '__all__', None)` as
classified by the `isinstance(dynamic_all, (list, tuple, set))` check in
`main` (line 286): a list, a tuple, a set, some other value, or absent. -/
inductive PyAll where
  | pyList (xs : List String)
  | pyTuple (xs : List String)
  | pySet (s : Finset String)
  | pyOther
deriving DecidableEq

/-- Lines 284-287 of `main`: the statically-parsed symbols are extended with
the elements of the loaded module's `__all__` exactly when that attribute is
a list, tuple, or set. -/
def resolveExports (exported_symbols : Finset String) (dynamic_all : Option PyAll) :
    Finset String :=
  match dynamic_all with
  | some (.pyList xs) => exported_symbols ∪ xs.toFinset
  | some (.pyTuple xs) => exported_symbols ∪ xs.toFinset
  | some (.pySet s) => exported_symbols ∪ s
  | some .pyOther => exported_symbols
  | none => exported_symbols

/-- Lines 296-301 of `main`: mark `from_init = True` on every record whose
identifier's last dot-segment is in the export set; other records are left
unchanged. -/
def mark_from_init (all_api : List ApiRec) (exported : Finset String) : List ApiRec :=
  all_api.map fun item =>
    if pyLast (pySplit item._id '.') ∈ exported then { item with from_init := true }
    else item

/-! ## Graph construction (src/JSON2KG/build_kg.py)

One input record as read back from JSON by `build_knowledge_graph` and
`write_to_neo4j_py2neo`: the optional fields model `item.get(...)` returning
`None` when the key is absent. The records produced by this pipeline always
carry `type` and `_id` as strings, so those two are plain. A parameter entry
carries no "name" key in this pipeline, so `p_info.get("name", p_name)` is
the dictionary key itself, and only the `is_optional` flag is kept. -/

structure Item where
  file : Option String := none
  module : Option String := none
  cls : Option String := none
  doc : Option String := none
  returns_doc : Option String := none
  parameters : List (String × Bool) := []
  type : String := ""
  _id : String := ""
deriving DecidableEq

/-- An RDF term: a `URIRef` or a `Literal` (datatypes are not modelled; no
behaviour of the builder depends on them). -/
inductive RTerm where
  | uri (s : String)
  | lit (s : String)
deriving DecidableEq

/-- The `CODE` namespace of build_kg.py (line 28). -/
def CODE : String := "http://example.org/code#"

/-- The `RDF.type` predicate. -/
def rdfType : String := "http://www.w3.org/1999/02/22-rdf-syntax-ns#type"

/-- The `RDFS.label` predicate. -/
def rdfsLabel : String := "http://www.w3.org/2000/01/rdf-schema#label"

/-- Lines 66-69: the identifier sanitization inside `uri_encode` — replace
backslashes, slashes, spaces and dots by underscores. -/
def sanitizeId (identifier : String) : String :=
  pyReplaceChar (pyReplaceChar (pyReplaceChar (pyReplaceChar identifier '\\' '_') '/' '_')
    ' ' '_') '.' '_'

/-- Lines 65-70: build the URIRef for an entity key under a base namespace. -/
def uri_encode (base_ns : String) (identifier : String) : RTerm :=
  RTerm.uri (base_ns ++ sanitizeId identifier)

/-- State threaded through the record loop of `build_knowledge_graph`
(lines 59-63): the rdflib graph (a set of subject-predicate-object triples)
and the four per-category dedup dictionaries, modelled as association lists
where insertion prepends and lookup takes the first hit. -/
structure KGState where
  graph : Finset (RTerm × String × RTerm)
  script_map : List (String × RTerm)
  module_map : List (String × RTerm)
  class_map : List (String × RTerm)
  api_map : List (String × RTerm)
deriving DecidableEq

/-- Lines 34-51: the ontology declaration triples. -/
def ontologyTriples : List (RTerm × String × RTerm) :=
  [ (RTerm.uri (CODE ++ "Library"), rdfsLabel, RTerm.lit "Library"),
    (RTerm.uri (CODE ++ "Script"), rdfsLabel, RTerm.lit "Script"),
    (RTerm.uri (CODE ++ "Module"), rdfsLabel, RTerm.lit "Module"),
    (RTerm.uri (CODE ++ "Class"), rdfsLabel, RTerm.lit "Class"),
    (RTerm.uri (CODE ++ "API"), rdfsLabel, RTerm.lit "API"),
    (RTerm.uri (CODE ++ "Description"), rdfsLabel, RTerm.lit "Description"),
    (RTerm.uri (CODE ++ "ReturnValue"), rdfsLabel, RTerm.lit "ReturnValue"),
    (RTerm.uri (CODE ++ "Parameter"), rdfsLabel, RTerm.lit "Parameter"),
    (RTerm.uri (CODE ++ "hasScript"), rdfsLabel, RTerm.lit "has script"),
    (RTerm.uri (CODE ++ "containModule"), rdfsLabel, RTerm.lit "contain module"),
    (RTerm.uri (CODE ++ "include"), rdfsLabel, RTerm.lit "include"),
    (RTerm.uri (CODE ++ "inherit"), rdfsLabel, RTerm.lit "inherit"),
    (RTerm.uri (CODE ++ "hasMethod"), rdfsLabel, RTerm.lit "has method"),
    (RTerm.uri (CODE ++ "hasReturnValueType"), rdfsLabel, RTerm.lit "has return value type"),
    (RTerm.uri (CODE ++ "hasDescription"), rdfsLabel, RTerm.lit "has description"),
    (RTerm.uri (CODE ++ "hasReturnValue"), rdfsLabel, RTerm.lit "has return value"),
    (RTerm.uri (CODE ++ "hasParameter"), rdfsLabel, RTerm.lit "has parameter") ]

/-- Lines 30-63: the graph and dedup tables before the record loop starts:
the ontology triples plus the typed and labelled Library node. -/
def initKG (libNode : String) (library_name : String) : KGState :=
  { graph := ontologyTriples.toFinset ∪
      {(RTerm.uri libNode, rdfType, RTerm.uri (CODE ++ "Library")),
       (RTerm.uri libNode, rdfsLabel, RTerm.lit library_name)}
    script_map := []
    module_map := []
    class_map := []
    api_map := [] }

/-- Lines 83-94: Script handling for one record — create-or-reuse the Script
node keyed by the file path, attaching new nodes to the Library; returns the
state and the `script_node` value (`none` when the record has no file). -/
def kgScript (libNode : String) (item : Item) (σ : KGState) : KGState × Option RTerm :=
  if truthy item.file then
    let file_str := item.file.getD ""
    match σ.script_map.lookup file_str with
    | none =>
        let script_node := uri_encode (CODE ++ "Script") file_str
        ({ σ with
            graph := insert (script_node, rdfType, RTerm.uri (CODE ++ "Script"))
              (insert (script_node, rdfsLabel, RTerm.lit file_str)
                (insert (RTerm.uri libNode, CODE ++ "hasScript", script_node) σ.graph))
            script_map := (file_str, script_node) :: σ.script_map }, some script_node)
    | some v => (σ, some v)
  else (σ, none)

/-- Lines 96-108: Module handling — create-or-reuse the Module node keyed by
the module name; a newly created module is attached to the script when there
is one. Returns the state and the `mod_node` value. -/
def kgModule (item : Item) (script_node : Option RTerm) (σ : KGState) : KGState × Option RTerm :=
  if truthy item.module then
    let module_str := item.module.getD ""
    match σ.module_map.lookup module_str with
    | none =>
        let mod_node := uri_encode (CODE ++ "Module") module_str
        let g1 := insert (mod_node, rdfType, RTerm.uri (CODE ++ "Module"))
          (insert (mod_node, rdfsLabel, RTerm.lit module_str) σ.graph)
        let g2 := match script_node with
          | some sn => insert (sn, CODE ++ "containModule", mod_node) g1
          | none => g1
        ({ σ with graph := g2, module_map := (module_str, mod_node) :: σ.module_map },
          some mod_node)
    | some v => (σ, some v)
  else (σ, none)

/-- Lines 110-154: Class and API handling. A class record whose module field
is falsy is given the fallback module "flask.app" when its `class` field is
"Flask" or "App" and "UnknownModule" otherwise (lines 112-127); the Class
node is keyed by the record's `_id` and the `class_map` entry is written
unconditionally (line 132). A function or member_function record creates the
API node keyed by `_id`; a member_function with a truthy `class` field
attaches via `hasMethod` from the Class node keyed by that bare class-name
string, creating it when absent (lines 143-151); otherwise the module node
gets the `hasMethod` edge (lines 152-154). -/
def kgClassApi (item : Item) (script_node : Option RTerm) (mod_node : Option RTerm)
    (σ : KGState) : KGState :=
  if item.type = "class" then
    let pm : KGState × Option RTerm :=
      if truthy item.module = false then
        let module_str :=
          if item.cls = some "Flask" ∨ item.cls = some "App" then "flask.app"
          else "UnknownModule"
        match σ.module_map.lookup module_str with
        | none =>
            let mn := uri_encode (CODE ++ "Module") module_str
            let g1 := insert (mn, rdfType, RTerm.uri (CODE ++ "Module"))
              (insert (mn, rdfsLabel, RTerm.lit module_str) σ.graph)
            let g2 := match script_node with
              | some sn => insert (sn, CODE ++ "containModule", mn) g1
              | none => g1
            ({ σ with graph := g2, module_map := (module_str, mn) :: σ.module_map }, some mn)
        | some v => (σ, some v)
      else (σ, mod_node)
    let σ1 := pm.1
    let class_node := uri_encode (CODE ++ "Class") item._id
    let σ2 := { σ1 with
      graph := insert (class_node, rdfType, RTerm.uri (CODE ++ "Class"))
        (insert (class_node, rdfsLabel, RTerm.lit item._id) σ1.graph)
      class_map := (item._id, class_node) :: σ1.class_map }
    match pm.2 with
    | some mn => { σ2 with graph := insert (mn, CODE ++ "include", class_node) σ2.graph }
    | none => σ2
  else if item.type = "function" ∨ item.type = "member_function" then
    let api_node := uri_encode (CODE ++ "API") item._id
    let σ1 := { σ with
      graph := insert (api_node, rdfType, RTerm.uri (CODE ++ "API"))
        (insert (api_node, rdfsLabel, RTerm.lit item._id) σ.graph)
      api_map := (item._id, api_node) :: σ.api_map }
    if item.type = "member_function" ∧ truthy item.cls then
      let class_str := item.cls.getD ""
      match σ1.class_map.lookup class_str with
      | none =>
          let parent := uri_encode (CODE ++ "Class") class_str
          let σ2 := { σ1 with
            graph := insert (parent, rdfType, RTerm.uri (CODE ++ "Class"))
              (insert (parent, rdfsLabel, RTerm.lit class_str) σ1.graph)
            class_map := (class_str, parent) :: σ1.class_map }
          { σ2 with graph := insert (parent, CODE ++ "hasMethod", api_node) σ2.graph }
      | some parent =>
          { σ1 with graph := insert (parent, CODE ++ "hasMethod", api_node) σ1.graph }
    else
      match mod_node with
      | some mn => { σ1 with graph := insert (mn, CODE ++ "hasMethod", api_node) σ1.graph }
      | none => σ1
  else σ

/-- Lines 156-168: Description handling — a record with a truthy doc gets a
typed Description node labelled with the first 200 characters; the
`hasDescription` edge is added only when the record's type is function,
member_function (from the API node) or class (from the Class node). -/
def kgDoc (item : Item) (σ : KGState) : KGState :=
  if truthy item.doc then
    let doc_str := item.doc.getD ""
    let desc_node := uri_encode (CODE ++ "Description") (item._id ++ "_desc")
    let g1 := insert (desc_node, rdfType, RTerm.uri (CODE ++ "Description"))
      (insert (desc_node, rdfsLabel, RTerm.lit (pyTake doc_str 200)) σ.graph)
    if item.type = "function" ∨ item.type = "member_function" then
      match σ.api_map.lookup item._id with
      | some an => { σ with graph := insert (an, CODE ++ "hasDescription", desc_node) g1 }
      | none => { σ with graph := g1 }
    else if item.type = "class" then
      match σ.class_map.lookup item._id with
      | some cn => { σ with graph := insert (cn, CODE ++ "hasDescription", desc_node) g1 }
      | none => { σ with graph := g1 }
    else { σ with graph := g1 }
  else σ

/-- Lines 170-177: ReturnValue handling for function and member_function
records with a truthy `returns_doc`. -/
def kgRet (item : Item) (σ : KGState) : KGState :=
  if truthy item.returns_doc ∧ (item.type = "function" ∨ item.type = "member_function") then
    let ret_doc := item.returns_doc.getD ""
    let ret_node := uri_encode (CODE ++ "ReturnValue") (item._id ++ "_ret")
    let g1 := insert (ret_node, rdfType, RTerm.uri (CODE ++ "ReturnValue"))
      (insert (ret_node, rdfsLabel, RTerm.lit ret_doc) σ.graph)
    match σ.api_map.lookup item._id with
    | some an => { σ with graph := insert (an, CODE ++ "hasReturnValue", ret_node) g1 }
    | none => { σ with graph := g1 }
  else σ

/-- Python `f"{b}"` for a boolean. -/
def pyBoolRepr : Bool → String
  | true => "True"
  | false => "False"

/-- Lines 179-190: Parameter handling — one typed, labelled Parameter node
and a `hasParameter` edge per entry, when the record is a function or
member_function with a nonempty parameter table. -/
def kgParams (item : Item) (σ : KGState) : KGState :=
  if item.parameters.isEmpty = false ∧ (item.type = "function" ∨ item.type = "member_function") then
    match σ.api_map.lookup item._id with
    | some an =>
        { σ with graph := item.parameters.foldl (fun g q =>
            let pnode := uri_encode (CODE ++ "Parameter") (item._id ++ "_" ++ q.1)
            insert (an, CODE ++ "hasParameter", pnode)
              (insert (pnode, rdfsLabel,
                  RTerm.lit (q.1 ++ " (optional=" ++ pyBoolRepr q.2 ++ ")"))
                (insert (pnode, rdfType, RTerm.uri (CODE ++ "Parameter")) g))) σ.graph }
    | none => σ
  else σ

/-- The body of the record loop of `build_knowledge_graph` (lines 73-190). -/
def kgItem (libNode : String) (σ : KGState) (item : Item) : KGState :=
  let p1 := kgScript libNode item σ
  let p2 := kgModule item p1.2 p1.1
  kgParams item (kgRet item (kgDoc item (kgClassApi item p1.2 p2.2 p2.1)))

/-- Lines 23-199: build the rdflib graph (and the dedup tables) from the
record list. -/
def build_knowledge_graph (json_data : List Item) (library_name : String) : KGState :=
  let safe_library_name := pyReplaceChar library_name ' ' '_'
  let libNode := CODE ++ safe_library_name
  json_data.foldl (kgItem libNode) (initKG libNode library_name)

/-! ## Property-graph mirror (write_to_neo4j_py2neo, lines 202-315)

The Neo4j store is abstracted to the set of node keys and the set of
relationship keys: py2neo's `graph.merge(node, label, "name")` matches on the
primary label plus the `name` property and creates the node exactly when no
match exists (it does not modify a matched node's properties), and
`graph.merge(rel)` merges a relationship by its two (already merged)
endpoints and its type. A node key is the pair (label, name); a relationship
key is (start node key, type, end node key). -/

/-- The state of the Neo4j store: merged node keys and relationship keys. -/
@[ext]
structure NState where
  nodes : Finset (String × String)
  rels : Finset ((String × String) × String × (String × String))
deriving DecidableEq

/-- The initially empty store. -/
def emptyN : NState := ⟨∅, ∅⟩

/-- Merge (upsert) of a node by label + name key. -/
def mergeNode (k : String × String) (σ : NState) : NState := ⟨insert k σ.nodes, σ.rels⟩

/-- Merge (upsert) of a relationship between two already-merged nodes. -/
def mergeRel (r : (String × String) × String × (String × String)) (σ : NState) : NState :=
  ⟨σ.nodes, insert r σ.rels⟩

/-- Lines 211-218: look up the Library node by name and create it only when
no match exists. -/
def ensureLibrary (library_name : String) (σ : NState) : NState :=
  if ("Library", library_name) ∈ σ.nodes then σ
  else ⟨insert ("Library", library_name) σ.nodes, σ.rels⟩

/-- Lines 232-238: Script handling — merge the Script node keyed by the file
path and the HAS_SCRIPT relationship from the Library node (when the record
has a file). -/
def neoScriptPart (library_node : String × String) (script_node : Option (String × String))
    (σ : NState) : NState :=
  match script_node with
  | some sk => mergeRel (library_node, "HAS_SCRIPT", sk) (mergeNode sk σ)
  | none => σ

/-- Lines 240-247 (and, identically, the fallback re-merge of lines
257-262): merge a Module node and, when a script is present, the
CONTAIN_MODULE relationship from it. -/
def neoModulePart (script_node : Option (String × String))
    (module_node : Option (String × String)) (σ : NState) : NState :=
  match module_node with
  | some mk =>
      (match script_node with
       | some sk => mergeRel (sk, "CONTAIN_MODULE", mk) (mergeNode mk σ)
       | none => mergeNode mk σ)
  | none => σ

/-- Lines 250-275: the class branch — fallback module assignment for class
records without module attribution (class field "Flask" or "App" maps to
"flask.app", anything else to "UnknownModule"), the Class node keyed by
`_id`, the INCLUDE relationship, and the Description merge. -/
def neoClassPart (item : Item) (script_node : Option (String × String))
    (module_node : Option (String × String)) (σ : NState) : NState :=
  let fb := if item.cls = some "Flask" ∨ item.cls = some "App" then "flask.app"
    else "UnknownModule"
  let module_node2 :=
    if truthy item.module = false then some (("Module", fb) : String × String)
    else module_node
  let σ3 := if truthy item.module = false then
      neoModulePart script_node (some ("Module", fb)) σ
    else σ
  let ck : String × String := ("Class", item._id)
  let σ4 := mergeNode ck σ3
  let σ5 := match module_node2 with
    | some mk => mergeRel (mk, "INCLUDE", ck) σ4
    | none => σ4
  if truthy item.doc then
    mergeRel (ck, "HAS_DESCRIPTION", ("Description", item._id ++ "_desc"))
      (mergeNode ("Description", item._id ++ "_desc") σ5)
  else σ5

/-- Lines 277-313: the function / member_function branch — the API node
keyed by `_id`, the HAS_METHOD relationship (from the Class node keyed by
the bare class-name string for a member_function with a truthy class field,
else from the module node), then Description, ReturnValue and Parameter
merges. -/
def neoFuncPart (item : Item) (module_node : Option (String × String)) (σ : NState) :
    NState :=
  let ak : String × String := ("API", item._id)
  let σ3 := mergeNode ak σ
  let σ4 := if item.type = "member_function" ∧ truthy item.cls then
      mergeRel (("Class", item.cls.getD ""), "HAS_METHOD", ak)
        (mergeNode ("Class", item.cls.getD "") σ3)
    else
      (match module_node with
       | some mk => mergeRel (mk, "HAS_METHOD", ak) σ3
       | none => σ3)
  let σ5 := if truthy item.doc then
      mergeRel (ak, "HAS_DESCRIPTION", ("Description", item._id ++ "_desc"))
        (mergeNode ("Description", item._id ++ "_desc") σ4)
    else σ4
  let σ6 := if truthy item.returns_doc then
      mergeRel (ak, "HAS_RETURN_VALUE", ("ReturnValue", item._id ++ "_ret"))
        (mergeNode ("ReturnValue", item._id ++ "_ret") σ5)
    else σ5
  if item.parameters.isEmpty = false then
    item.parameters.foldl (fun σ q =>
      mergeRel (ak, "HAS_PARAMETER", ("Parameter", item._id ++ "_" ++ q.1))
        (mergeNode ("Parameter", item._id ++ "_" ++ q.1) σ)) σ6
  else σ6

/-- Lines 222-313: the body of the record loop of `write_to_neo4j_py2neo`.
Every node write is a merge keyed by label + name and every relationship
write is a merge keyed by endpoints + type; the sections mirror the source
(Script, Module, then the class branch or the function branch). -/
def neoStep (library_name : String) (σ0 : NState) (item : Item) : NState :=
  let library_node : String × String := ("Library", library_name)
  let script_node :=
    if truthy item.file then some (("Script", item.file.getD "") : String × String) else none
  let module_node :=
    if truthy item.module then some (("Module", item.module.getD "") : String × String)
    else none
  let σ2 := neoModulePart script_node module_node (neoScriptPart library_node script_node σ0)
  if item.type = "class" then neoClassPart item script_node module_node σ2
  else if item.type = "function" ∨ item.type = "member_function" then
    neoFuncPart item module_node σ2
  else σ2


/-- Lines 202-315: the full Neo4j write — match-or-create the Library node,
then run the record loop. The `library_name` is the one carried over in
`node_dicts`. -/
def write_to_neo4j_py2neo (library_name : String) (json_data : List Item) (σ : NState) :
    NState :=
  json_data.foldl (neoStep library_name) (ensureLibrary library_name σ)

/-! ## Generic helper lemmas -/

/-- Left cancellation for string concatenation. -/
theorem string_append_cancel_left (a b c : String) (h : a ++ b = a ++ c) : b = c := by
  cases a with
  | mk da =>
    cases b with
    | mk db =>
      cases c with
      | mk dc =>
        have h2 : String.mk (da ++ db) = String.mk (da ++ dc) := h
        have h3 : da ++ db = da ++ dc := by injection h2
        have h4 := List.append_cancel_left h3
        rw [h4]

/-- The predicate component of equal triples is equal. -/
theorem pred_of_triple_eq (t1 t2 : RTerm × String × RTerm) (h : t1 = t2) : t1.2.1 = t2.2.1 := by
  rw [h]

/-- Association-list lookup hits are members of the list. -/
theorem mem_of_lookup_rterm :
    ∀ (l : List (String × RTerm)) (k : String) (v : RTerm),
      l.lookup k = some v → (k, v) ∈ l := by
  intro l
  induction l with
  | nil => intro k v h; simp [List.lookup] at h
  | cons p t ih =>
      intro k v h
      rw [List.lookup] at h
      by_cases hk : k == p.1
      · rw [hk] at h
        have hk2 : k = p.1 := by
          exact eq_of_beq hk
        have hv : p.2 = v := by
          simpa using h
        rw [hk2, ← hv]
        exact List.mem_cons_self p t
      · rw [Bool.not_eq_true] at hk
        rw [hk] at h
        exact List.mem_cons_of_mem p (ih k v h)

/-- Fields of `build_api_item` that do not depend on the object. -/
@[simp]
theorem build_api_item_id (i : String) (o : PyObj) (p : Option PyObj) :
    (build_api_item i o p)._id = i := by
  simp [build_api_item]

@[simp]
theorem build_api_item_from_init (i : String) (o : PyObj) (p : Option PyObj) :
    (build_api_item i o p).from_init = false := by
  simp [build_api_item]

/-! ## Claim C7 — identifier sanitization -/

/-- A character-level replacement is the identity on strings that do not
contain the replaced character. -/
theorem pyReplaceChar_id (s : String) (c d : Char) (h : ∀ x ∈ s.data, x ≠ c) :
    pyReplaceChar s c d = s := by
  cases s with
  | mk da =>
      unfold pyReplaceChar
      have : da.map (fun x => if x = c then d else x) = da := by
        have h2 : ∀ x ∈ da, (fun x => if x = c then d else x) x = id x := by
          intro x hx
          simp [h x hx]
        rw [List.map_congr_left h2, List.map_id]
      simp [this]

/-- An entity key that contains no path separators, spaces or dots. -/
def cleanKey (s : String) : Prop :=
  ∀ c ∈ s.data, c ≠ '\\' ∧ c ≠ '/' ∧ c ≠ ' ' ∧ c ≠ '.'

instance (s : String) : Decidable (cleanKey s) := by
  unfold cleanKey
  infer_instance

/-- Sanitization is the identity on clean keys. -/
theorem sanitizeId_clean (s : String) (h : cleanKey s) : sanitizeId s = s := by
  unfold sanitizeId
  rw [pyReplaceChar_id s '\\' '_' (fun x hx => (h x hx).1),
    pyReplaceChar_id s '/' '_' (fun x hx => (h x hx).2.1),
    pyReplaceChar_id s ' ' '_' (fun x hx => (h x hx).2.2.1),
    pyReplaceChar_id s '.' '_' (fun x hx => (h x hx).2.2.2)]

/-- C7, counterexample: sanitization is not collision-avoiding — the distinct
keys "a.b" and "a b" yield the same node identifier under any category
namespace, here the Class namespace used by build_knowledge_graph. -/
theorem c7_counterexample :
    sanitizeId "a.b" = sanitizeId "a b" ∧ ("a.b" : String) ≠ "a b" ∧
      uri_encode (CODE ++ "Class") "a.b" = uri_encode (CODE ++ "Class") "a b" := by
  refine ⟨by decide, by decide, ?_⟩
  unfold uri_encode
  rw [(by decide : sanitizeId "a.b" = sanitizeId "a b")]

/-- C7, amended: `uri_encode` is deterministic (it is a function of the key),
and it is collision-avoiding on keys free of backslashes, slashes, spaces and
dots — on such keys sanitization is the identity, so two clean keys receive
the same node identifier exactly when they are equal. Distinct keys that
differ only in the normalized characters may collide (see the
counterexample). -/
theorem c7_amended (base k1 k2 : String) (h1 : cleanKey k1) (h2 : cleanKey k2) :
    uri_encode base k1 = uri_encode base k2 ↔ k1 = k2 := by
  unfold uri_encode
  rw [sanitizeId_clean k1 h1, sanitizeId_clean k2 h2]
  constructor
  · intro h
    have h3 : base ++ k1 = base ++ k2 := by injection h
    exact string_append_cancel_left base k1 k2 h3
  · intro h
    rw [h]

/-- C7, witness: the amended theorem applied to the clean keys "pkgC" and
"pkgD" under the Class namespace. -/
theorem c7_witness :
    (uri_encode (CODE ++ "Class") "pkgC" = uri_encode (CODE ++ "Class") "pkgD" ↔
      ("pkgC" : String) = "pkgD") :=
  c7_amended (CODE ++ "Class") "pkgC" "pkgD" (by decide) (by decide)

/-! ## Claim C2 — static from-import resolution -/

/-- A fold whose step never removes elements preserves subsets. -/
theorem foldl_step_subset {α : Type} (g : Finset String → α → Finset String)
    (hg : ∀ s a, s ⊆ g s a) :
    ∀ (l : List α) (s : Finset String), s ⊆ l.foldl g s := by
  intro l
  induction l with
  | nil => intro s; simp
  | cons a t ih =>
      intro s
      rw [List.foldl_cons]
      exact (hg s a).trans (ih (g s a))

/-- Inserting folds contain the image of every list element. -/
theorem mem_foldl_insert {α : Type} (f : α → String) :
    ∀ (l : List α) (s : Finset String) (a : α), a ∈ l →
      f a ∈ l.foldl (fun acc x => insert (f x) acc) s := by
  intro l
  induction l with
  | nil => intro s a h; cases h
  | cons b t ih =>
      intro s a h
      rw [List.foldl_cons]
      rcases List.mem_cons.mp h with h1 | h1
      · subst h1
        exact foldl_step_subset _ (fun s x => Finset.subset_insert (f x) s) t _
          (Finset.mem_insert_self (f a) s)
      · exact ih _ a h1

/-- Each statement step of `parse_init_file` only adds symbols. -/
theorem initStep_subset (s : Finset String) (n : PyStmt) : s ⊆ initStep s n := by
  cases n with
  | imp names =>
      exact foldl_step_subset _ (fun s a => Finset.subset_insert _ s) names s
  | impFrom m names =>
      have hbase : ∀ s1 : Finset String, s1 ⊆ names.foldl (fun acc a => insert a.name acc) s1 :=
        fun s1 => foldl_step_subset _ (fun s2 a => Finset.subset_insert _ s2) names s1
      cases m with
      | none => exact hbase s
      | some mstr =>
          simp only [initStep]
          by_cases hn : (!(pyIsEmptyStr (pyHead (pySplit mstr '.')))) = true
          · rw [if_pos hn]
            exact (Finset.subset_insert _ s).trans (hbase _)
          · rw [if_neg hn]
            exact hbase s
  | assign targets value =>
      match targets with
      | [] => exact Finset.Subset.refl s
      | PyTarget.otherT :: ts => exact Finset.Subset.refl s
      | PyTarget.nameT tgt :: t1 :: ts => exact Finset.Subset.refl s
      | [PyTarget.nameT tgt] =>
          simp only [initStep]
          by_cases htgt : tgt = "__all__"
          · rw [if_pos htgt]
            match value with
            | PyExpr.strc s1 => exact Finset.Subset.refl s
            | PyExpr.otherc => exact Finset.Subset.refl s
            | PyExpr.listc elts =>
                refine foldl_step_subset _ ?_ elts s
                intro s2 e
                match e with
                | PyExpr.strc s1 => exact Finset.subset_insert _ s2
                | PyExpr.listc l1 => exact Finset.Subset.refl s2
                | PyExpr.tuplec l1 => exact Finset.Subset.refl s2
                | PyExpr.otherc => exact Finset.Subset.refl s2
            | PyExpr.tuplec elts =>
                refine foldl_step_subset _ ?_ elts s
                intro s2 e
                match e with
                | PyExpr.strc s1 => exact Finset.subset_insert _ s2
                | PyExpr.listc l1 => exact Finset.Subset.refl s2
                | PyExpr.tuplec l1 => exact Finset.Subset.refl s2
                | PyExpr.otherc => exact Finset.Subset.refl s2
          · rw [if_neg htgt]
  | otherStmt => exact Finset.Subset.refl s

/-- The whole static pass only grows the symbol set along the statement
list. -/
theorem parse_init_fold_subset :
    ∀ (body : List PyStmt) (s : Finset String), s ⊆ body.foldl initStep s :=
  foldl_step_subset initStep initStep_subset

/-- C2, counterexample: for the entry-file body `from m import y as z` the
static pass collects the module root "m" and the original name "y" but NOT
the bound alias "z", although the claim requires the bound name (the alias
when present) to be added. -/
theorem c2_counterexample :
    ("z" ∉ parse_init_file [PyStmt.impFrom (some "m") [⟨"y", some "z"⟩]]) ∧
      "y" ∈ parse_init_file [PyStmt.impFrom (some "m") [⟨"y", some "z"⟩]] ∧
      "m" ∈ parse_init_file [PyStmt.impFrom (some "m") [⟨"y", some "z"⟩]] := by
  refine ⟨?_, ?_, ?_⟩ <;> decide

/-- C2, amended: for every top-level from-import statement `from X import
...` in the entry-point body, the static pass adds the root segment of `X`
(when that root segment is nonempty) and, for each imported symbol, its
original name — the alias, when present, is ignored. -/
theorem c2_amended (body : List PyStmt) (X : String) (aliases : List PyImportAlias)
    (h : PyStmt.impFrom (some X) aliases ∈ body) :
    ((!(pyIsEmptyStr (pyHead (pySplit X '.')))) = true →
        pyHead (pySplit X '.') ∈ parse_init_file body) ∧
      ∀ a ∈ aliases, a.name ∈ parse_init_file body := by
  obtain ⟨l1, l2, hbody⟩ := List.append_of_mem h
  subst hbody
  unfold parse_init_file
  rw [List.foldl_append, List.foldl_cons]
  set s0 := l1.foldl initStep ∅ with hs0
  have hroot : (!(pyIsEmptyStr (pyHead (pySplit X '.')))) = true →
      pyHead (pySplit X '.') ∈ initStep s0 (PyStmt.impFrom (some X) aliases) := by
    intro hne
    simp only [initStep]
    refine foldl_step_subset _ (fun s a => Finset.subset_insert _ s) aliases _ ?_
    rw [if_pos hne]
    exact Finset.mem_insert_self _ _
  have halias : ∀ a ∈ aliases, a.name ∈ initStep s0 (PyStmt.impFrom (some X) aliases) := by
    intro a ha
    simp only [initStep]
    exact mem_foldl_insert (fun a => a.name) aliases _ a ha
  refine ⟨fun hne => parse_init_fold_subset l2 _ (hroot hne),
    fun a ha => parse_init_fold_subset l2 _ (halias a ha)⟩

/-- C2, witness: the amended theorem applied to the single-statement body
`from pkg.sub import y as z`: the root "pkg" and the original name "y" land
in the export set. -/
theorem c2_witness :
    ("pkg" ∈ parse_init_file [PyStmt.impFrom (some "pkg.sub") [⟨"y", some "z"⟩]]) ∧
      "y" ∈ parse_init_file [PyStmt.impFrom (some "pkg.sub") [⟨"y", some "z"⟩]] := by
  have h := c2_amended [PyStmt.impFrom (some "pkg.sub") [⟨"y", some "z"⟩]] "pkg.sub"
    [⟨"y", some "z"⟩] (List.Mem.head _)
  refine ⟨?_, h.2 ⟨"y", some "z"⟩ (List.Mem.head _)⟩
  have h1 := h.1 (by decide)
  simpa using h1

/-! ## Claim C1 — export annotation -/

/-- Every record emitted by the traversal leaves the `from_init` flag at its
default `false`; the proof is a strong induction on the size of the traversed
object, covering the mutual recursion of `traverse_module` and
`traverse_members`. -/
theorem traverse_from_init_aux :
    ∀ k : Nat,
      (∀ (m : PyObj) (v : List String), sizeOf m ≤ k →
        ∀ r ∈ (traverse_module m v).1, r.from_init = false) ∧
      (∀ (mn : String) (ms : List (String × PyObj)) (v : List String), sizeOf ms ≤ k →
        ∀ r ∈ (traverse_members mn ms v).1, r.from_init = false) := by
  intro k
  induction k using Nat.strong_induction_on with
  | _ k ih =>
      constructor
      · intro m v hk r hr
        match m with
        | PyObj.module name info members =>
            by_cases hv : name ∈ v
            · simp only [traverse_module, if_pos hv] at hr
              exact absurd hr (List.not_mem_nil r)
            · simp only [traverse_module, if_neg hv] at hr
              rcases List.mem_cons.mp hr with h1 | h1
              · rw [h1]
                exact build_api_item_from_init _ _ _
              · have hlt : sizeOf members < sizeOf (PyObj.module name info members) := by
                  simp <;> omega
                exact ((ih (sizeOf members) (lt_of_lt_of_le hlt hk)).2 name members
                  (name :: v) le_rfl) r h1
        | PyObj.cls name info members =>
            by_cases hv : name ∈ v
            · simp only [traverse_module, if_pos hv] at hr
              exact absurd hr (List.not_mem_nil r)
            · simp only [traverse_module, if_neg hv] at hr
              rcases List.mem_cons.mp hr with h1 | h1
              · rw [h1]
                exact build_api_item_from_init _ _ _
              · have hlt : sizeOf members < sizeOf (PyObj.cls name info members) := by
                  simp <;> omega
                exact ((ih (sizeOf members) (lt_of_lt_of_le hlt hk)).2 name members
                  (name :: v) le_rfl) r h1
        | PyObj.func fi =>
            by_cases hv : pyGetName (PyObj.func fi) "unknown" ∈ v
            · simp only [traverse_module, if_pos hv] at hr
              exact absurd hr (List.not_mem_nil r)
            · simp only [traverse_module, if_neg hv] at hr
              rcases List.mem_cons.mp hr with h1 | h1
              · rw [h1]
                exact build_api_item_from_init _ _ _
              · exact absurd h1 (List.not_mem_nil r)
        | PyObj.other oi =>
            by_cases hv : pyGetName (PyObj.other oi) "unknown" ∈ v
            · simp only [traverse_module, if_pos hv] at hr
              exact absurd hr (List.not_mem_nil r)
            · simp only [traverse_module, if_neg hv] at hr
              rcases List.mem_cons.mp hr with h1 | h1
              · rw [h1]
                exact build_api_item_from_init _ _ _
              · exact absurd h1 (List.not_mem_nil r)
      · intro mn ms v hk r hr
        match ms with
        | [] =>
            simp only [traverse_members] at hr
            exact absurd hr (List.not_mem_nil r)
        | (n, member) :: rest =>
            have hrest : sizeOf rest < sizeOf ((n, member) :: rest) := by
              simp <;> omega
            have hmem : sizeOf member < sizeOf ((n, member) :: rest) := by
              simp <;> omega
            match member with
            | PyObj.module mn2 mi mms =>
                by_cases hg : pyStartsWith mn2 (pyHead (pySplit mn '.')) = true
                · simp only [traverse_members, if_pos hg] at hr
                  rcases List.mem_append.mp hr with h1 | h1
                  · exact ((ih (sizeOf (PyObj.module mn2 mi mms))
                      (lt_of_lt_of_le hmem hk)).1 (PyObj.module mn2 mi mms) v le_rfl) r h1
                  · exact ((ih (sizeOf rest) (lt_of_lt_of_le hrest hk)).2 mn rest _ le_rfl) r h1
                · simp only [traverse_members, if_neg hg] at hr
                  exact ((ih (sizeOf rest) (lt_of_lt_of_le hrest hk)).2 mn rest v le_rfl) r hr
            | PyObj.cls cn ci cms =>
                simp only [traverse_members] at hr
                rcases List.mem_cons.mp hr with h1 | h1
                · rw [h1]
                  exact build_api_item_from_init _ _ _
                · rcases List.mem_append.mp h1 with h2 | h2
                  · rcases List.mem_filterMap.mp h2 with ⟨q, hq, heq⟩
                    rcases q with ⟨qn, qo⟩
                    cases qo with
                    | func fi2 =>
                        simp only [Option.some.injEq] at heq
                        rw [← heq]
                        exact build_api_item_from_init _ _ _
                    | module a b c => simp at heq
                    | cls a b c => simp at heq
                    | other a => simp at heq
                  · exact ((ih (sizeOf rest) (lt_of_lt_of_le hrest hk)).2 mn rest v le_rfl) r h2
            | PyObj.func fi =>
                simp only [traverse_members] at hr
                rcases List.mem_cons.mp hr with h1 | h1
                · rw [h1]
                  exact build_api_item_from_init _ _ _
                · exact ((ih (sizeOf rest) (lt_of_lt_of_le hrest hk)).2 mn rest v le_rfl) r h1
            | PyObj.other oi =>
                simp only [traverse_members] at hr
                exact ((ih (sizeOf rest) (lt_of_lt_of_le hrest hk)).2 mn rest v le_rfl) r hr

/-- Every record produced by one traversal starts with `from_init = false`. -/
theorem traverse_from_init_false (m : PyObj) (v : List String) :
    ∀ r ∈ (traverse_module m v).1, r.from_init = false :=
  (traverse_from_init_aux (sizeOf m)).1 m v le_rfl

/-- C1: for every APIRecord produced in one extraction run (a traversal
followed by the annotation pass of `main`), the `from_init` flag is true if
and only if the record identifier's final dot-segment is in the export set
formed by `resolveExports` from the statically parsed entry-point symbols and
the loaded module's `__all__`; otherwise it keeps its default `false`. -/
theorem c1_from_init_iff (body : List PyStmt) (dyn : Option PyAll) (m : PyObj) (r : ApiRec)
    (h : r ∈ mark_from_init (traverse_module m []).1 (resolveExports (parse_init_file body) dyn)) :
    (r.from_init = true ↔
      pyLast (pySplit r._id '.') ∈ resolveExports (parse_init_file body) dyn) := by
  unfold mark_from_init at h
  rcases List.mem_map.mp h with ⟨r0, hr0, heq⟩
  have h0 := traverse_from_init_false m [] r0 hr0
  by_cases hc : pyLast (pySplit r0._id '.') ∈ resolveExports (parse_init_file body) dyn
  · rw [if_pos hc] at heq
    subst heq
    simpa using hc
  · rw [if_neg hc] at heq
    subst heq
    simp only [h0, Bool.false_eq_true, false_iff]
    simpa using hc

/-- An object with no reflective metadata, used by concrete witnesses. -/
def emptyInfo : ObjInfo :=
  { doc := "", source := none, siginfo := none, module := none, file := none }

/-- The annotated record of the function `m.f` in the C1 witness package. -/
def c1AnnotatedRec : ApiRec :=
  { _id := "m.f", doc := "", is_deprecated := false, source_code := none,
    signature := "()", parameters := [], returns_doc := none, raise_doc := none,
    type := "function", cls := none, from_init := true, module := none,
    file := none }

/-- C1, witness: the annotated record of the function `m.f`, extracted from a
package whose entry file reads `from m import f`, has `from_init = true` and
its last identifier segment "f" is in the resolved export set. -/
theorem c1_witness :
    (c1AnnotatedRec.from_init = true ↔
      pyLast (pySplit c1AnnotatedRec._id '.') ∈
        resolveExports (parse_init_file [PyStmt.impFrom (some "m") [⟨"f", none⟩]]) none) := by
  apply c1_from_init_iff [PyStmt.impFrom (some "m") [⟨"f", none⟩]] none
    (PyObj.module "m" emptyInfo [("f", PyObj.func emptyInfo)])
  simp [mark_from_init, traverse_module, traverse_members]
  decide

/-! ## Claim C4 — recursion guard for member modules -/

/-- C4, counterexample: the guard of line 225 is a plain string-prefix test,
so a member module named "foobar" under the root module "foo" IS recursed
into (its module record appears in the output), although its first
dot-segment "foobar" differs from the root's first dot-segment "foo". -/
theorem c4_counterexample :
    (pyHead (pySplit "foobar" '.') ≠ pyHead (pySplit "foo" '.')) ∧
      ∃ r ∈ (traverse_module (PyObj.module "foo" emptyInfo
        [("foobar", PyObj.module "foobar" emptyInfo [])]) []).1, r._id = "foobar" := by
  have hstart : pyStartsWith "foobar" (pyHead (pySplit "foo" '.')) = true := by decide
  have hneq : ("foobar" : String) ≠ "foo" := by decide
  refine ⟨by decide, ?_⟩
  simp [traverse_module, traverse_members, hstart, hneq]

/-- C4, amended: for a member module of a visited module, the traversal
recurses into it exactly when the member module's `__name__` starts with the
first dot-segment of the visiting module's name as a string prefix — sharing
the first dot-segment is sufficient but not necessary (a name like "foobar"
under root "foo" also passes the test). Stated observably: the member
module's own record appears in the output iff the prefix test passes. -/
theorem c4_amended (rn mn n : String) (i1 i2 : ObjInfo) (h2 : mn ≠ rn) :
    ((∃ r ∈ (traverse_module (PyObj.module rn i1 [(n, PyObj.module mn i2 [])]) []).1,
        r._id = mn ∧ r.type = "module")
      ↔ pyStartsWith mn (pyHead (pySplit rn '.')) = true) := by
  constructor
  · intro hex
    rcases hex with ⟨r, hr, hid, hty⟩
    by_contra hg
    rw [Bool.not_eq_true] at hg
    simp [traverse_module, traverse_members, hg] at hr
    rw [hr] at hid
    simp at hid
    exact h2 (hid.symm ▸ rfl)
  · intro hg
    refine ⟨build_api_item mn (PyObj.module mn i2 []) none, ?_, by simp, ?_⟩
    · simp [traverse_module, traverse_members, hg, h2]
    · simp [build_api_item]

/-- C4, witness: the amended theorem applied to root "foo" with member module
"foobar": the prefix test passes, so the member module's record is
produced. -/
theorem c4_witness :
    ∃ r ∈ (traverse_module (PyObj.module "foo" emptyInfo
      [("b", PyObj.module "foobar" emptyInfo [])]) []).1, r._id = "foobar" ∧
        r.type = "module" :=
  (c4_amended "foo" "foobar" "b" emptyInfo emptyInfo (by decide)).mpr (by decide)

/-! ## Claim C6 — best-effort record construction -/

/-- A plain function member of a visited module always contributes its record
to the member loop's output, whatever its reflective metadata. -/
theorem traverse_members_func_mem (mn : String) :
    ∀ (ms : List (String × PyObj)) (v : List String) (n : String) (fi : ObjInfo),
      (n, PyObj.func fi) ∈ ms →
      build_api_item (mn ++ "." ++ n) (PyObj.func fi) none ∈ (traverse_members mn ms v).1 := by
  intro ms
  induction ms with
  | nil =>
      intro v n fi h
      cases h
  | cons hd tl ih =>
      intro v n fi h
      rcases List.mem_cons.mp h with h1 | h1
      · rw [← h1]
        simp only [traverse_members]
        exact List.mem_cons_self _ _
      · rcases hd with ⟨n1, member1⟩
        cases member1 with
        | module mn2 mi mms =>
            by_cases hg : pyStartsWith mn2 (pyHead (pySplit mn '.')) = true
            · simp only [traverse_members, if_pos hg]
              exact List.mem_append_right _ (ih _ n fi h1)
            · simp only [traverse_members, if_neg hg]
              exact ih _ n fi h1
        | cls cn ci cms =>
            simp only [traverse_members]
            exact List.mem_cons_of_mem _ (List.mem_append_right _ (ih _ n fi h1))
        | func fi1 =>
            simp only [traverse_members]
            exact List.mem_cons_of_mem _ (ih _ n fi h1)
        | other oi =>
            simp only [traverse_members]
            exact ih _ n fi h1

/-- C6: for a discovered plain function whose signature retrieval and source
retrieval both fail, the record is still constructed and emitted — never
dropped: it appears in the traversal output with the signature defaulting to
"()", the source recorded as absent, and the kind still correctly classified
as "function"; since this holds wherever the member sits in the member list,
the surrounding traversal continues past the failure. -/
theorem c6_degraded_record_emitted (mn : String) (mi : ObjInfo)
    (members : List (String × PyObj)) (v : List String) (n : String) (fi : ObjInfo)
    (hmem : (n, PyObj.func fi) ∈ members) (hv : mn ∉ v)
    (hsig : fi.siginfo = none) (hsrc : fi.source = none) :
    ∃ r ∈ (traverse_module (PyObj.module mn mi members) v).1,
      r._id = mn ++ "." ++ n ∧ r.signature = "()" ∧ r.source_code = none ∧
        r.type = "function" := by
  refine ⟨build_api_item (mn ++ "." ++ n) (PyObj.func fi) none, ?_, by simp, ?_, ?_, ?_⟩
  · simp only [traverse_module, if_neg hv]
    exact List.mem_cons_of_mem _ (traverse_members_func_mem mn members (mn :: v) n fi hmem)
  · simp [build_api_item, PyObj.info, hsig]
  · simp [build_api_item, PyObj.info, hsrc]
  · simp [build_api_item]

/-- C6, witness: a module with a single compiled-style function member (no
retrievable signature or source) still yields the record `m.f` with signature
"()" and absent source. -/
theorem c6_witness :
    ∃ r ∈ (traverse_module (PyObj.module "m" emptyInfo
      [("f", PyObj.func emptyInfo)]) []).1,
      r._id = "m" ++ "." ++ "f" ∧ r.signature = "()" ∧ r.source_code = none ∧
        r.type = "function" :=
  c6_degraded_record_emitted "m" emptyInfo [("f", PyObj.func emptyInfo)] [] "f" emptyInfo
    (List.Mem.head _) (by simp) rfl rfl

/-! ## Claim C8 — owning class attribution -/

/-- A function found among a visited class's members always contributes a
member_function record built with that very class as `parent_class`. -/
theorem traverse_members_method_mem (mn : String) :
    ∀ (ms : List (String × PyObj)) (v : List String) (n cn : String) (ci : ObjInfo)
      (cms : List (String × PyObj)) (sn : String) (fi : ObjInfo),
      (n, PyObj.cls cn ci cms) ∈ ms → (sn, PyObj.func fi) ∈ cms →
      build_api_item (mn ++ "." ++ n ++ "." ++ sn) (PyObj.func fi)
        (some (PyObj.cls cn ci cms)) ∈ (traverse_members mn ms v).1 := by
  intro ms
  induction ms with
  | nil =>
      intro v n cn ci cms sn fi h hf
      cases h
  | cons hd tl ih =>
      intro v n cn ci cms sn fi h hf
      rcases List.mem_cons.mp h with h1 | h1
      · rw [← h1]
        simp only [traverse_members]
        refine List.mem_cons_of_mem _ (List.mem_append_left _ ?_)
        refine List.mem_filterMap.mpr ⟨(sn, PyObj.func fi), hf, rfl⟩
      · rcases hd with ⟨n1, member1⟩
        cases member1 with
        | module mn2 mi mms =>
            by_cases hg : pyStartsWith mn2 (pyHead (pySplit mn '.')) = true
            · simp only [traverse_members, if_pos hg]
              exact List.mem_append_right _ (ih _ n cn ci cms sn fi h1 hf)
            · simp only [traverse_members, if_neg hg]
              exact ih _ n cn ci cms sn fi h1 hf
        | cls cn1 ci1 cms1 =>
            simp only [traverse_members]
            exact List.mem_cons_of_mem _
              (List.mem_append_right _ (ih _ n cn ci cms sn fi h1 hf))
        | func fi1 =>
            simp only [traverse_members]
            exact List.mem_cons_of_mem _ (ih _ n cn ci cms sn fi h1 hf)
        | other oi =>
            simp only [traverse_members]
            exact ih _ n cn ci cms sn fi h1 hf

/-- C8, counterexample: in a package `m` with class `C` owning method `f`,
the member_function record `m.C.f` carries `class = "C"` — the bare
`__name__` of the visited class — and NOT the dotted identifier "m.C" of the
class being visited, as the claim requires. -/
theorem c8_counterexample :
    (∃ r ∈ (traverse_module (PyObj.module "m" emptyInfo
        [("C", PyObj.cls "C" emptyInfo [("f", PyObj.func emptyInfo)])]) []).1,
      r._id = "m.C.f" ∧ r.cls = some "C") ∧
      ¬∃ r ∈ (traverse_module (PyObj.module "m" emptyInfo
        [("C", PyObj.cls "C" emptyInfo [("f", PyObj.func emptyInfo)])]) []).1,
        r._id = "m.C.f" ∧ r.cls = some "m.C" := by
  have hlist : (traverse_module (PyObj.module "m" emptyInfo
      [("C", PyObj.cls "C" emptyInfo [("f", PyObj.func emptyInfo)])]) []).1 =
      [build_api_item "m" (PyObj.module "m" emptyInfo
        [("C", PyObj.cls "C" emptyInfo [("f", PyObj.func emptyInfo)])]) none,
       build_api_item ("m" ++ "." ++ "C")
        (PyObj.cls "C" emptyInfo [("f", PyObj.func emptyInfo)]) none,
       build_api_item ("m" ++ "." ++ "C" ++ "." ++ "f") (PyObj.func emptyInfo)
        (some (PyObj.cls "C" emptyInfo [("f", PyObj.func emptyInfo)]))] := by
    simp [traverse_module, traverse_members]
  rw [hlist]
  decide

/-- C8, amended: for every member_function record, the `class` field equals
the bare `__name__` of exactly the class being visited when the record was
created (not its fully-qualified dotted identifier, and not an ancestor's
name) — even when the underlying function object is inherited and therefore
also listed among the members of other classes. -/
theorem c8_amended (mn : String) (mi : ObjInfo) (members : List (String × PyObj))
    (v : List String) (n cn : String) (ci : ObjInfo) (cms : List (String × PyObj))
    (sn : String) (fi : ObjInfo)
    (hc : (n, PyObj.cls cn ci cms) ∈ members) (hf : (sn, PyObj.func fi) ∈ cms)
    (hv : mn ∉ v) :
    ∃ r ∈ (traverse_module (PyObj.module mn mi members) v).1,
      r._id = mn ++ "." ++ n ++ "." ++ sn ∧ r.type = "member_function" ∧
        r.cls = some cn := by
  refine ⟨build_api_item (mn ++ "." ++ n ++ "." ++ sn) (PyObj.func fi)
    (some (PyObj.cls cn ci cms)), ?_, by simp, ?_, ?_⟩
  · simp only [traverse_module, if_neg hv]
    exact List.mem_cons_of_mem _ (traverse_members_method_mem mn members (mn :: v)
      n cn ci cms sn fi hc hf)
  · simp [build_api_item]
  · simp [build_api_item, pyGetName]

/-- C8, witness: a base class `C` and a subclass `D` both expose the same
inherited function object; the record created while visiting `D` carries
`class = "D"` — the visited class, not the ancestor. -/
theorem c8_witness :
    ∃ r ∈ (traverse_module (PyObj.module "m" emptyInfo
      [("C", PyObj.cls "C" emptyInfo [("f", PyObj.func emptyInfo)]),
       ("D", PyObj.cls "D" emptyInfo [("f", PyObj.func emptyInfo)])]) []).1,
      r._id = "m" ++ "." ++ "D" ++ "." ++ "f" ∧ r.type = "member_function" ∧
        r.cls = some "D" :=
  c8_amended "m" emptyInfo
    [("C", PyObj.cls "C" emptyInfo [("f", PyObj.func emptyInfo)]),
     ("D", PyObj.cls "D" emptyInfo [("f", PyObj.func emptyInfo)])] [] "D" "D" emptyInfo
    [("f", PyObj.func emptyInfo)] "f" emptyInfo
    (List.Mem.tail _ (List.Mem.head _)) (List.Mem.head _) (by simp)

/-! ## Claim C5 — idempotence of the property-graph write -/

/-- Componentwise union of two store states. -/
def sU (a b : NState) : NState := ⟨a.nodes ∪ b.nodes, a.rels ∪ b.rels⟩

/-- A store transformation is inflationary-by-a-constant when its effect on
any state is the union of that state with its effect on the empty store; all
merge-by-key writes have this shape because every written key is computed
from the input record, never from the store. -/
def InflN (f : NState → NState) : Prop := ∀ σ, f σ = sU σ (f emptyN)

theorem sU_empty (a : NState) : sU a emptyN = a := by
  cases a
  simp [sU, emptyN]

theorem sU_assoc (a b c : NState) : sU (sU a b) c = sU a (sU b c) := by
  simp [sU, Finset.union_assoc]

theorem sU_self (a : NState) : sU a a = a := by
  cases a
  simp [sU]

theorem infl_id : InflN (fun σ => σ) := by
  intro σ
  exact (sU_empty σ).symm

theorem infl_mergeNode (k : String × String) : InflN (mergeNode k) := by
  intro σ
  refine NState.ext ?_ ?_ <;> ext x <;> simp [mergeNode, sU, emptyN] <;> tauto

theorem infl_mergeRel (r : (String × String) × String × (String × String)) :
    InflN (mergeRel r) := by
  intro σ
  refine NState.ext ?_ ?_ <;> ext x <;> simp [mergeRel, sU, emptyN] <;> tauto

theorem infl_comp {f g : NState → NState} (hf : InflN f) (hg : InflN g) :
    InflN (fun σ => g (f σ)) := by
  intro σ
  show g (f σ) = sU σ (g (f emptyN))
  rw [hg (f σ), hf σ, hg (f emptyN), sU_assoc]

theorem infl_foldl {α : Type} {g : NState → α → NState}
    (hg : ∀ a, InflN (fun σ => g σ a)) :
    ∀ l : List α, InflN (fun σ => l.foldl g σ) := by
  intro l
  induction l with
  | nil =>
      intro σ
      simp only [List.foldl_nil]
      exact (sU_empty σ).symm
  | cons a t ih =>
      intro σ
      simp only [List.foldl_cons]
      exact infl_comp (hg a) ih σ

theorem infl_ensureLibrary (n : String) : InflN (ensureLibrary n) := by
  intro σ
  unfold ensureLibrary
  have h0 : ¬(("Library", n) ∈ emptyN.nodes) := by
    simp [emptyN]
  rw [if_neg h0]
  by_cases h : ("Library", n) ∈ σ.nodes
  · rw [if_pos h]
    refine NState.ext ?_ ?_ <;> ext x <;> simp [sU, emptyN]
    rintro rfl
    exact h
  · rw [if_neg h]
    refine NState.ext ?_ ?_ <;> ext x <;> simp [sU, emptyN] <;> tauto

theorem infl_neoScriptPart (ln : String × String) (sn : Option (String × String)) :
    InflN (neoScriptPart ln sn) := by
  cases sn with
  | none =>
      intro σ
      simp only [neoScriptPart]
      exact (sU_empty σ).symm
  | some sk =>
      have h := infl_comp (infl_mergeNode sk) (infl_mergeRel (ln, "HAS_SCRIPT", sk))
      exact h

theorem infl_neoModulePart (sn mn : Option (String × String)) :
    InflN (neoModulePart sn mn) := by
  cases mn with
  | none =>
      intro σ
      simp only [neoModulePart]
      exact (sU_empty σ).symm
  | some mk =>
      cases sn with
      | none => exact infl_mergeNode mk
      | some sk =>
          have h := infl_comp (infl_mergeNode mk) (infl_mergeRel (sk, "CONTAIN_MODULE", mk))
          exact h

theorem infl_neoClassPart (it : Item) (sn mn : Option (String × String)) :
    InflN (neoClassPart it sn mn) := by
  have h3 : InflN (fun σ => if truthy it.module = false then
      neoModulePart sn (some ("Module",
        if it.cls = some "Flask" ∨ it.cls = some "App" then "flask.app"
        else "UnknownModule")) σ else σ) := by
    by_cases hm : truthy it.module = false
    · simp only [if_pos hm]
      exact infl_neoModulePart _ _
    · simp only [if_neg hm]
      exact infl_id
  have h5 : InflN (fun σ => match
      (if truthy it.module = false then some (("Module",
        if it.cls = some "Flask" ∨ it.cls = some "App" then "flask.app"
        else "UnknownModule") : String × String) else mn) with
    | some mk => mergeRel (mk, "INCLUDE", ("Class", it._id)) σ
    | none => σ) := by
    by_cases hm : truthy it.module = false
    · simp only [if_pos hm]
      exact infl_mergeRel _
    · simp only [if_neg hm]
      cases mn with
      | none => exact infl_id
      | some mk => exact infl_mergeRel _
  have hdoc : InflN (fun σ => if truthy it.doc then
      mergeRel (("Class", it._id), "HAS_DESCRIPTION", ("Description", it._id ++ "_desc"))
        (mergeNode ("Description", it._id ++ "_desc") σ) else σ) := by
    by_cases hd : truthy it.doc = true
    · simp only [if_pos hd]
      have h := infl_comp (infl_mergeNode (("Description", it._id ++ "_desc")))
        (infl_mergeRel (("Class", it._id), "HAS_DESCRIPTION",
          ("Description", it._id ++ "_desc")))
      exact h
    · simp only [if_neg hd]
      exact infl_id
  have hfull := infl_comp (infl_comp (infl_comp h3
    (infl_mergeNode ("Class", it._id))) h5) hdoc
  exact hfull

theorem infl_neoFuncPart (it : Item) (mn : Option (String × String)) :
    InflN (neoFuncPart it mn) := by
  have hmethod : InflN (fun σ =>
      if it.type = "member_function" ∧ truthy it.cls then
        mergeRel (("Class", it.cls.getD ""), "HAS_METHOD", ("API", it._id))
          (mergeNode ("Class", it.cls.getD "") σ)
      else
        (match mn with
         | some mk => mergeRel (mk, "HAS_METHOD", ("API", it._id)) σ
         | none => σ)) := by
    by_cases hc : it.type = "member_function" ∧ truthy it.cls
    · simp only [if_pos hc]
      have h := infl_comp (infl_mergeNode ("Class", it.cls.getD ""))
        (infl_mergeRel (("Class", it.cls.getD ""), "HAS_METHOD", ("API", it._id)))
      exact h
    · simp only [if_neg hc]
      cases mn with
      | none => exact infl_id
      | some mk => exact infl_mergeRel _
  have hdoc : InflN (fun σ => if truthy it.doc then
      mergeRel (("API", it._id), "HAS_DESCRIPTION", ("Description", it._id ++ "_desc"))
        (mergeNode ("Description", it._id ++ "_desc") σ) else σ) := by
    by_cases hd : truthy it.doc = true
    · simp only [if_pos hd]
      have h := infl_comp (infl_mergeNode (("Description", it._id ++ "_desc")))
        (infl_mergeRel (("API", it._id), "HAS_DESCRIPTION",
          ("Description", it._id ++ "_desc")))
      exact h
    · simp only [if_neg hd]
      exact infl_id
  have hret : InflN (fun σ => if truthy it.returns_doc then
      mergeRel (("API", it._id), "HAS_RETURN_VALUE", ("ReturnValue", it._id ++ "_ret"))
        (mergeNode ("ReturnValue", it._id ++ "_ret") σ) else σ) := by
    by_cases hd : truthy it.returns_doc = true
    · simp only [if_pos hd]
      have h := infl_comp (infl_mergeNode (("ReturnValue", it._id ++ "_ret")))
        (infl_mergeRel (("API", it._id), "HAS_RETURN_VALUE",
          ("ReturnValue", it._id ++ "_ret")))
      exact h
    · simp only [if_neg hd]
      exact infl_id
  have hpar : InflN (fun σ => if it.parameters.isEmpty = false then
      it.parameters.foldl (fun σ q =>
        mergeRel (("API", it._id), "HAS_PARAMETER", ("Parameter", it._id ++ "_" ++ q.1))
          (mergeNode ("Parameter", it._id ++ "_" ++ q.1) σ)) σ else σ) := by
    by_cases hp : it.parameters.isEmpty = false
    · simp only [if_pos hp]
      refine infl_foldl ?_ it.parameters
      intro q
      have h := infl_comp (infl_mergeNode (("Parameter", it._id ++ "_" ++ q.1)))
        (infl_mergeRel (("API", it._id), "HAS_PARAMETER",
          ("Parameter", it._id ++ "_" ++ q.1)))
      exact h
    · simp only [if_neg hp]
      exact infl_id
  have hfull := infl_comp (infl_comp (infl_comp
    (infl_comp (infl_mergeNode ("API", it._id)) hmethod) hdoc) hret) hpar
  exact hfull

theorem infl_neoStep (lib : String) (it : Item) : InflN (fun σ => neoStep lib σ it) := by
  have hpre := infl_comp
    (infl_neoScriptPart ("Library", lib)
      (if truthy it.file then some (("Script", it.file.getD "") : String × String) else none))
    (infl_neoModulePart
      (if truthy it.file then some (("Script", it.file.getD "") : String × String) else none)
      (if truthy it.module then some (("Module", it.module.getD "") : String × String)
        else none))
  intro σ
  show neoStep lib σ it = sU σ (neoStep lib emptyN it)
  simp only [neoStep]
  by_cases h1 : it.type = "class"
  · rw [if_pos h1, if_pos h1]
    exact infl_comp hpre (infl_neoClassPart it _ _) σ
  · rw [if_neg h1, if_neg h1]
    by_cases h2 : it.type = "function" ∨ it.type = "member_function"
    · rw [if_pos h2, if_pos h2]
      exact infl_comp hpre (infl_neoFuncPart it _) σ
    · rw [if_neg h2, if_neg h2]
      exact hpre σ

/-- C5: running the property-graph write twice on the same record sequence
against the same initially empty store yields the same final node and
relationship sets as running it once — every node and relationship is
written via a merge-by-key (upsert) keyed by label plus natural key, so the
whole write only unions in a state-independent set of keys and is idempotent
under repeated runs. -/
theorem c5_idempotent (library_name : String) (json_data : List Item) :
    write_to_neo4j_py2neo library_name json_data
        (write_to_neo4j_py2neo library_name json_data emptyN) =
      write_to_neo4j_py2neo library_name json_data emptyN := by
  have hW : InflN (fun σ => write_to_neo4j_py2neo library_name json_data σ) := by
    have h := infl_comp (infl_ensureLibrary library_name)
      (infl_foldl (fun it => infl_neoStep library_name it) json_data)
    exact h
  have h2 : write_to_neo4j_py2neo library_name json_data
      (write_to_neo4j_py2neo library_name json_data emptyN) =
      sU (write_to_neo4j_py2neo library_name json_data emptyN)
        (write_to_neo4j_py2neo library_name json_data emptyN) :=
    hW (write_to_neo4j_py2neo library_name json_data emptyN)
  rw [h2]
  exact sU_self _

/-! ## Graph-construction lemmas (claims C3, C9, C10) -/

/-- A fold whose step never removes elements preserves subsets (generic
element type). -/
theorem foldl_superset {α β : Type} [DecidableEq β] (g : Finset β → α → Finset β)
    (hg : ∀ s a, s ⊆ g s a) :
    ∀ (l : List α) (s : Finset β), s ⊆ l.foldl g s := by
  intro l
  induction l with
  | nil => intro s; exact Finset.Subset.refl s
  | cons a t ih =>
      intro s
      rw [List.foldl_cons]
      exact (hg s a).trans (ih (g s a))

/-- The dedup tables hold only the sanitized-URI node of their key: the
invariant making each per-category lookup deterministic in the key. -/
def kgMapsInv (σ : KGState) : Prop :=
  (∀ p ∈ σ.module_map, p.2 = uri_encode (CODE ++ "Module") p.1) ∧
  (∀ p ∈ σ.class_map, p.2 = uri_encode (CODE ++ "Class") p.1)

theorem kgMapsInv_of_eq {σ τ : KGState} (h1 : τ.module_map = σ.module_map)
    (h2 : τ.class_map = σ.class_map) (h : kgMapsInv σ) : kgMapsInv τ :=
  ⟨h1 ▸ h.1, h2 ▸ h.2⟩

theorem kgScript_maps (l : String) (it : Item) (σ : KGState) :
    ((kgScript l it σ).1).module_map = σ.module_map ∧
      ((kgScript l it σ).1).class_map = σ.class_map := by
  simp only [kgScript]
  split
  · split <;> exact ⟨rfl, rfl⟩
  · exact ⟨rfl, rfl⟩

theorem kgScript_inv (l : String) (it : Item) (σ : KGState) (h : kgMapsInv σ) :
    kgMapsInv (kgScript l it σ).1 :=
  kgMapsInv_of_eq (kgScript_maps l it σ).1 (kgScript_maps l it σ).2 h

theorem kgModule_inv (it : Item) (sn : Option RTerm) (σ : KGState) (h : kgMapsInv σ) :
    kgMapsInv (kgModule it sn σ).1 := by
  simp only [kgModule]
  split
  · split
    · refine ⟨?_, h.2⟩
      intro p hp
      rcases List.mem_cons.mp hp with h1 | h1
      · rw [h1]
      · exact h.1 p h1
    · exact h
  · exact h

theorem kgClassApi_inv (it : Item) (sn mn : Option RTerm) (σ : KGState) (h : kgMapsInv σ) :
    kgMapsInv (kgClassApi it sn mn σ) := by
  simp only [kgClassApi]
  by_cases hty : it.type = "class"
  · rw [if_pos hty]
    by_cases hm : truthy it.module = false
    · rw [if_pos hm]
      cases hlk : List.lookup (if it.cls = some "Flask" ∨ it.cls = some "App"
          then "flask.app" else "UnknownModule") σ.module_map with
      | none =>
          constructor
          · intro p hp
            rcases List.mem_cons.mp hp with h1 | h1
            · rw [h1]
            · exact h.1 p h1
          · intro p hp
            rcases List.mem_cons.mp hp with h1 | h1
            · rw [h1]
            · exact h.2 p h1
      | some v =>
          constructor
          · intro p hp
            exact h.1 p hp
          · intro p hp
            rcases List.mem_cons.mp hp with h1 | h1
            · rw [h1]
            · exact h.2 p h1
    · rw [if_neg hm]
      cases mn with
      | none =>
          refine ⟨fun p hp => h.1 p hp, ?_⟩
          intro p hp
          rcases List.mem_cons.mp hp with h1 | h1
          · rw [h1]
          · exact h.2 p h1
      | some v =>
          refine ⟨fun p hp => h.1 p hp, ?_⟩
          intro p hp
          rcases List.mem_cons.mp hp with h1 | h1
          · rw [h1]
          · exact h.2 p h1
  · rw [if_neg hty]
    by_cases hty2 : it.type = "function" ∨ it.type = "member_function"
    · rw [if_pos hty2]
      by_cases hmf : it.type = "member_function" ∧ truthy it.cls
      · rw [if_pos hmf]
        cases hlk : List.lookup (it.cls.getD "") σ.class_map with
        | none =>
            refine ⟨fun p hp => h.1 p hp, ?_⟩
            intro p hp
            rcases List.mem_cons.mp hp with h1 | h1
            · rw [h1]
            · exact h.2 p h1
        | some v =>
            exact ⟨fun p hp => h.1 p hp, fun p hp => h.2 p hp⟩
      · rw [if_neg hmf]
        cases mn with
        | none => exact ⟨fun p hp => h.1 p hp, fun p hp => h.2 p hp⟩
        | some v => exact ⟨fun p hp => h.1 p hp, fun p hp => h.2 p hp⟩
    · rw [if_neg hty2]
      exact h

theorem kgDoc_maps (it : Item) (σ : KGState) :
    (kgDoc it σ).module_map = σ.module_map ∧ (kgDoc it σ).class_map = σ.class_map := by
  simp only [kgDoc]
  repeat' split
  all_goals exact ⟨rfl, rfl⟩

theorem kgRet_maps (it : Item) (σ : KGState) :
    (kgRet it σ).module_map = σ.module_map ∧ (kgRet it σ).class_map = σ.class_map := by
  simp only [kgRet]
  repeat' split
  all_goals exact ⟨rfl, rfl⟩

theorem kgParams_maps (it : Item) (σ : KGState) :
    (kgParams it σ).module_map = σ.module_map ∧ (kgParams it σ).class_map = σ.class_map := by
  simp only [kgParams]
  repeat' split
  all_goals exact ⟨rfl, rfl⟩

theorem kgItem_inv (l : String) (σ : KGState) (it : Item) (h : kgMapsInv σ) :
    kgMapsInv (kgItem l σ it) := by
  unfold kgItem
  have h1 := kgScript_inv l it σ h
  have h2 := kgModule_inv it (kgScript l it σ).2 (kgScript l it σ).1 h1
  have h3 := kgClassApi_inv it (kgScript l it σ).2
    (kgModule it (kgScript l it σ).2 (kgScript l it σ).1).2
    (kgModule it (kgScript l it σ).2 (kgScript l it σ).1).1 h2
  have h4 := kgMapsInv_of_eq (kgDoc_maps it _).1 (kgDoc_maps it _).2 h3
  have h5 := kgMapsInv_of_eq (kgRet_maps it _).1 (kgRet_maps it _).2 h4
  exact kgMapsInv_of_eq (kgParams_maps it _).1 (kgParams_maps it _).2 h5

theorem kg_fold_inv (l : String) :
    ∀ (items : List Item) (σ : KGState), kgMapsInv σ →
      kgMapsInv (items.foldl (kgItem l) σ) := by
  intro items
  induction items with
  | nil => intro σ h; exact h
  | cons a t ih =>
      intro σ h
      rw [List.foldl_cons]
      exact ih _ (kgItem_inv l σ a h)

theorem kgScript_mono (l : String) (it : Item) (σ : KGState) :
    σ.graph ⊆ ((kgScript l it σ).1).graph := by
  simp only [kgScript]
  split
  · split
    · intro t ht
      simp only [Finset.mem_insert]
      tauto
    · exact Finset.Subset.refl _
  · exact Finset.Subset.refl _

theorem kgModule_mono (it : Item) (sn : Option RTerm) (σ : KGState) :
    σ.graph ⊆ ((kgModule it sn σ).1).graph := by
  simp only [kgModule]
  split
  · split
    · split
      · intro t ht
        simp only [Finset.mem_insert]
        tauto
      · intro t ht
        simp only [Finset.mem_insert]
        tauto
    · exact Finset.Subset.refl _
  · exact Finset.Subset.refl _

theorem kgClassApi_mono (it : Item) (sn mn : Option RTerm) (σ : KGState) :
    σ.graph ⊆ (kgClassApi it sn mn σ).graph := by
  simp only [kgClassApi]
  by_cases hty : it.type = "class"
  · rw [if_pos hty]
    by_cases hm : truthy it.module = false
    · rw [if_pos hm]
      cases hlk : List.lookup (if it.cls = some "Flask" ∨ it.cls = some "App"
          then "flask.app" else "UnknownModule") σ.module_map with
      | none =>
          cases sn with
          | none =>
              intro t ht
              simp only [Finset.mem_insert]
              tauto
          | some s1 =>
              intro t ht
              simp only [Finset.mem_insert]
              tauto
      | some v =>
          intro t ht
          simp only [Finset.mem_insert]
          tauto
    · rw [if_neg hm]
      cases mn with
      | none =>
          intro t ht
          simp only [Finset.mem_insert]
          tauto
      | some v =>
          intro t ht
          simp only [Finset.mem_insert]
          tauto
  · rw [if_neg hty]
    by_cases hty2 : it.type = "function" ∨ it.type = "member_function"
    · rw [if_pos hty2]
      by_cases hmf : it.type = "member_function" ∧ truthy it.cls
      · rw [if_pos hmf]
        cases hlk : List.lookup (it.cls.getD "") σ.class_map with
        | none =>
            intro t ht
            simp only [Finset.mem_insert]
            tauto
        | some v =>
            intro t ht
            simp only [Finset.mem_insert]
            tauto
      · rw [if_neg hmf]
        cases mn with
        | none =>
            intro t ht
            simp only [Finset.mem_insert]
            tauto
        | some v =>
            intro t ht
            simp only [Finset.mem_insert]
            tauto
    · rw [if_neg hty2]

theorem kgDoc_mono (it : Item) (σ : KGState) : σ.graph ⊆ (kgDoc it σ).graph := by
  simp only [kgDoc]
  repeat' split
  all_goals intro t ht
  all_goals first
  | exact ht
  | (simp only [Finset.mem_insert] ; tauto)

theorem kgRet_mono (it : Item) (σ : KGState) : σ.graph ⊆ (kgRet it σ).graph := by
  simp only [kgRet]
  repeat' split
  all_goals intro t ht
  all_goals first
  | exact ht
  | (simp only [Finset.mem_insert] ; tauto)

theorem kgParams_mono (it : Item) (σ : KGState) : σ.graph ⊆ (kgParams it σ).graph := by
  simp only [kgParams]
  repeat' split
  · refine foldl_superset _ ?_ it.parameters σ.graph
    intro s q
    intro t ht
    simp only [Finset.mem_insert]
    tauto
  · exact Finset.Subset.refl _
  · exact Finset.Subset.refl _

theorem kgItem_mono (l : String) (σ : KGState) (it : Item) :
    σ.graph ⊆ (kgItem l σ it).graph := by
  unfold kgItem
  refine ((((kgScript_mono l it σ).trans
    (kgModule_mono it (kgScript l it σ).2 (kgScript l it σ).1)).trans
    (kgClassApi_mono it (kgScript l it σ).2 _ _)).trans
    (kgDoc_mono it _)).trans ((kgRet_mono it _).trans (kgParams_mono it _))

theorem kg_fold_mono (l : String) :
    ∀ (items : List Item) (σ : KGState),
      σ.graph ⊆ (items.foldl (kgItem l) σ).graph := by
  intro items
  induction items with
  | nil => intro σ; exact Finset.Subset.refl _
  | cons a t ih =>
      intro σ
      rw [List.foldl_cons]
      exact (kgItem_mono l σ a).trans (ih (kgItem l σ a))

theorem initKG_inv (a b : String) : kgMapsInv (initKG a b) :=
  ⟨fun p hp => absurd hp (List.not_mem_nil p), fun p hp => absurd hp (List.not_mem_nil p)⟩

theorem kgClassApi_adds_hasMethod (it : Item) (sn mn : Option RTerm) (σ : KGState)
    (hinv : ∀ p ∈ σ.class_map, p.2 = uri_encode (CODE ++ "Class") p.1)
    (hty : it.type = "member_function") (hcls : truthy it.cls = true) :
    (uri_encode (CODE ++ "Class") (it.cls.getD ""), CODE ++ "hasMethod",
      uri_encode (CODE ++ "API") it._id) ∈ (kgClassApi it sn mn σ).graph := by
  simp only [kgClassApi]
  have hnc : ¬(it.type = "class") := by
    rw [hty]
    decide
  rw [if_neg hnc, if_pos (Or.inr hty), if_pos (And.intro hty hcls)]
  cases hlk : List.lookup (it.cls.getD "") σ.class_map with
  | none =>
      simp only [Finset.mem_insert]
      tauto
  | some v =>
      have hv : v = uri_encode (CODE ++ "Class") (it.cls.getD "") :=
        hinv (it.cls.getD "", v) (mem_of_lookup_rterm _ _ _ hlk)
      simp only [hv, Finset.mem_insert]
      tauto

theorem kgClassApi_adds_include (it : Item) (sn mn : Option RTerm) (σ : KGState)
    (hinv : ∀ p ∈ σ.module_map, p.2 = uri_encode (CODE ++ "Module") p.1)
    (hty : it.type = "class") (hmod : truthy it.module = false) :
    (uri_encode (CODE ++ "Module") (if it.cls = some "Flask" ∨ it.cls = some "App"
        then "flask.app" else "UnknownModule"), CODE ++ "include",
      uri_encode (CODE ++ "Class") it._id) ∈ (kgClassApi it sn mn σ).graph := by
  simp only [kgClassApi]
  rw [if_pos hty, if_pos hmod]
  cases hlk : List.lookup (if it.cls = some "Flask" ∨ it.cls = some "App"
      then "flask.app" else "UnknownModule") σ.module_map with
  | none =>
      simp only [Finset.mem_insert]
      tauto
  | some v =>
      have hv : v = uri_encode (CODE ++ "Module")
          (if it.cls = some "Flask" ∨ it.cls = some "App" then "flask.app"
            else "UnknownModule") :=
        hinv (_, v) (mem_of_lookup_rterm _ _ _ hlk)
      simp only [hv, Finset.mem_insert]
      tauto

theorem kgDoc_adds_descType (it : Item) (σ : KGState) (hdoc : truthy it.doc = true) :
    (uri_encode (CODE ++ "Description") (it._id ++ "_desc"), rdfType,
      RTerm.uri (CODE ++ "Description")) ∈ (kgDoc it σ).graph := by
  simp only [kgDoc]
  rw [if_pos hdoc]
  repeat' split
  all_goals simp only [Finset.mem_insert]
  all_goals tauto

theorem kgItem_adds_hasMethod (l : String) (σ : KGState) (it : Item) (hinv : kgMapsInv σ)
    (hty : it.type = "member_function") (hcls : truthy it.cls = true) :
    (uri_encode (CODE ++ "Class") (it.cls.getD ""), CODE ++ "hasMethod",
      uri_encode (CODE ++ "API") it._id) ∈ (kgItem l σ it).graph := by
  unfold kgItem
  have h1 := kgScript_inv l it σ hinv
  have h2 := kgModule_inv it (kgScript l it σ).2 (kgScript l it σ).1 h1
  have hadd := kgClassApi_adds_hasMethod it (kgScript l it σ).2
    (kgModule it (kgScript l it σ).2 (kgScript l it σ).1).2
    (kgModule it (kgScript l it σ).2 (kgScript l it σ).1).1 h2.2 hty hcls
  exact kgParams_mono it _ (kgRet_mono it _ (kgDoc_mono it _ hadd))

theorem kgItem_adds_include (l : String) (σ : KGState) (it : Item) (hinv : kgMapsInv σ)
    (hty : it.type = "class") (hmod : truthy it.module = false) :
    (uri_encode (CODE ++ "Module") (if it.cls = some "Flask" ∨ it.cls = some "App"
        then "flask.app" else "UnknownModule"), CODE ++ "include",
      uri_encode (CODE ++ "Class") it._id) ∈ (kgItem l σ it).graph := by
  unfold kgItem
  have h1 := kgScript_inv l it σ hinv
  have h2 := kgModule_inv it (kgScript l it σ).2 (kgScript l it σ).1 h1
  have hadd := kgClassApi_adds_include it (kgScript l it σ).2
    (kgModule it (kgScript l it σ).2 (kgScript l it σ).1).2
    (kgModule it (kgScript l it σ).2 (kgScript l it σ).1).1 h2.1 hty hmod
  exact kgParams_mono it _ (kgRet_mono it _ (kgDoc_mono it _ hadd))

/-! ## Claim C3 — class entity identity -/

/-- One input record of each flavour for the C3 example. -/
def c3ClassItem : Item :=
  { type := "class", _id := "pkg.C", module := some "m" }

/-- The member_function record whose owning class has the class record
`c3ClassItem` in the same input. -/
def c3MethodItem : Item :=
  { type := "member_function", _id := "pkg.C.f", cls := some "C", module := some "m" }

/-- C3, counterexample: with a class record `pkg.C` and a member_function
record `pkg.C.f` carrying the bare owning-class name "C" in the same input,
the hasMethod relationship attaches to a SECOND Class entity keyed "C", not
to the entity created for the class record (keyed "pkg.C"), and the two are
distinct nodes. -/
theorem c3_counterexample :
    ((uri_encode (CODE ++ "Class") "C", CODE ++ "hasMethod",
        uri_encode (CODE ++ "API") "pkg.C.f") ∈
      (build_knowledge_graph [c3ClassItem, c3MethodItem] "Lib").graph) ∧
      ((uri_encode (CODE ++ "Class") "pkg.C", CODE ++ "hasMethod",
          uri_encode (CODE ++ "API") "pkg.C.f") ∉
        (build_knowledge_graph [c3ClassItem, c3MethodItem] "Lib").graph) ∧
      uri_encode (CODE ++ "Class") "C" ≠ uri_encode (CODE ++ "Class") "pkg.C" := by
  decide

/-- C3, amended: within one graph-construction pass each distinct class key
maps to exactly one entity instance — every class_map entry's node is the
sanitized URI determined by its key — but the keys differ between the two
creation sites: class records are keyed by their fully-qualified `_id`,
while the hasMethod relationship of a member_function record attaches to the
Class entity keyed by the record's bare owning-class name (creating it when
absent). When the class record's fully-qualified identifier differs from the
bare name, that is a different entity than the one created for the class
record (see the counterexample). -/
theorem c3_amended (json_data : List Item) (library_name : String) :
    (∀ p ∈ (build_knowledge_graph json_data library_name).class_map,
        p.2 = uri_encode (CODE ++ "Class") p.1) ∧
      ∀ it ∈ json_data, it.type = "member_function" → truthy it.cls = true →
        (uri_encode (CODE ++ "Class") (it.cls.getD ""), CODE ++ "hasMethod",
          uri_encode (CODE ++ "API") it._id) ∈
          (build_knowledge_graph json_data library_name).graph := by
  constructor
  · intro p hp
    simp only [build_knowledge_graph] at hp
    exact (kg_fold_inv _ json_data _ (initKG_inv _ _)).2 p hp
  · intro it hmem hty hcls
    simp only [build_knowledge_graph]
    obtain ⟨l1, l2, hsplit⟩ := List.append_of_mem hmem
    subst hsplit
    rw [List.foldl_append, List.foldl_cons]
    refine kg_fold_mono _ l2 _ ?_
    exact kgItem_adds_hasMethod _ _ it (kg_fold_inv _ l1 _ (initKG_inv _ _)) hty hcls

/-- C3, witness: the amended theorem applied to the single member_function
record `pkg.C.f` with owning-class name "C": the hasMethod edge from the
Class entity keyed "C" is in the resulting graph. -/
theorem c3_witness :
    (uri_encode (CODE ++ "Class") "C", CODE ++ "hasMethod",
      uri_encode (CODE ++ "API") "pkg.C.f") ∈
      (build_knowledge_graph [c3MethodItem] "Lib").graph := by
  have h := (c3_amended [c3MethodItem] "Lib").2 c3MethodItem (List.Mem.head _) rfl (by decide)
  simpa [c3MethodItem] using h

/-! ## Claim C9 — fallback module assignment -/

/-- The rels component only grows under an inflationary store write. -/
theorem rels_mono_of_infl {f : NState → NState} (hf : InflN f) (σ : NState) :
    σ.rels ⊆ (f σ).rels := by
  rw [hf σ]
  exact Finset.subset_union_left

/-- The Neo4j write of a class record without module attribution merges the
INCLUDE relationship from the fallback module node. -/
theorem neoStep_adds_include (lib : String) (σ : NState) (it : Item)
    (hty : it.type = "class") (hmod : truthy it.module = false) :
    ((("Module", if it.cls = some "Flask" ∨ it.cls = some "App" then "flask.app"
        else "UnknownModule") : String × String), "INCLUDE",
      (("Class", it._id) : String × String)) ∈ (neoStep lib σ it).rels := by
  simp only [neoStep]
  rw [if_pos hty]
  simp only [neoClassPart]
  rw [if_pos hmod, if_pos hmod]
  by_cases hd : truthy it.doc = true
  · rw [if_pos hd]
    simp only [mergeRel, mergeNode, Finset.mem_insert]
    tauto
  · rw [if_neg hd]
    simp only [mergeRel, mergeNode, Finset.mem_insert]
    tauto

/-- C9: a class record lacking module attribution is assigned the fallback
module by the fixed rule — "flask.app" when the record's class field is in
the hardcoded set {"Flask", "App"}, the generic placeholder "UnknownModule"
otherwise — and this holds on both output paths: the rdflib graph receives
the include edge from the fallback Module node, and the Neo4j store receives
the INCLUDE relationship from the fallback Module node. -/
theorem c9_fallback_module (json_data : List Item) (library_name lib2 : String) (it : Item)
    (hmem : it ∈ json_data) (hty : it.type = "class") (hmod : truthy it.module = false) :
    ((uri_encode (CODE ++ "Module") (if it.cls = some "Flask" ∨ it.cls = some "App"
        then "flask.app" else "UnknownModule"), CODE ++ "include",
      uri_encode (CODE ++ "Class") it._id) ∈
      (build_knowledge_graph json_data library_name).graph) ∧
      ((((("Module", if it.cls = some "Flask" ∨ it.cls = some "App" then "flask.app"
          else "UnknownModule") : String × String), "INCLUDE",
          (("Class", it._id) : String × String))) ∈
        (write_to_neo4j_py2neo lib2 json_data emptyN).rels) := by
  obtain ⟨l1, l2, hsplit⟩ := List.append_of_mem hmem
  subst hsplit
  constructor
  · simp only [build_knowledge_graph]
    rw [List.foldl_append, List.foldl_cons]
    refine kg_fold_mono _ l2 _ ?_
    exact kgItem_adds_include _ _ it (kg_fold_inv _ l1 _ (initKG_inv _ _)) hty hmod
  · simp only [write_to_neo4j_py2neo]
    rw [List.foldl_append, List.foldl_cons]
    refine rels_mono_of_infl
      (infl_foldl (fun it2 => infl_neoStep lib2 it2) l2) _ ?_
    exact neoStep_adds_include lib2 _ it hty hmod

/-- A class record without module attribution whose class field is "Flask",
for the C9 witness. -/
def c9Item : Item := { type := "class", _id := "X", cls := some "Flask" }

/-- C9, witness: the record `c9Item` is assigned the fallback module
"flask.app" on both paths. -/
theorem c9_witness :
    ((uri_encode (CODE ++ "Module") "flask.app", CODE ++ "include",
      uri_encode (CODE ++ "Class") "X") ∈
      (build_knowledge_graph [c9Item] "Lib").graph) ∧
      (((("Module", "flask.app") : String × String), "INCLUDE",
        (("Class", "X") : String × String)) ∈
        (write_to_neo4j_py2neo "Lib2" [c9Item] emptyN).rels) := by
  have h := c9_fallback_module [c9Item] "Lib" "Lib2" c9Item (List.Mem.head _) rfl (by decide)
  simpa [c9Item] using h

/-! ## Claim C10 — unattached Description nodes -/

/-- The object component of equal triples is equal. -/
theorem obj_of_triple_eq (t1 t2 : RTerm × String × RTerm) (h : t1 = t2) : t1.2.2 = t2.2.2 := by
  rw [h]

/-- Stripping an inserted triple with a different predicate. -/
theorem mem_of_mem_insert_pred_ne {a b x y : RTerm} {P Q : String}
    {s : Finset (RTerm × String × RTerm)}
    (h : ((a, P, b) : RTerm × String × RTerm) ∈ insert ((x, Q, y) : RTerm × String × RTerm) s)
    (hne : P ≠ Q) : ((a, P, b) : RTerm × String × RTerm) ∈ s := by
  rcases Finset.mem_insert.mp h with h1 | h1
  · exact absurd (pred_of_triple_eq _ _ h1) hne
  · exact h1

theorem kgScript_hasDesc (l : String) (it : Item) (σ : KGState) (a b : RTerm)
    (h : ((a, CODE ++ "hasDescription", b) : RTerm × String × RTerm) ∈
      ((kgScript l it σ).1).graph) :
    ((a, CODE ++ "hasDescription", b) : RTerm × String × RTerm) ∈ σ.graph := by
  revert h
  simp only [kgScript]
  split
  · split
    · intro h
      repeat
        first
        | exact h
        | replace h := mem_of_mem_insert_pred_ne h (by decide)
    · intro h
      exact h
  · intro h
    exact h

theorem kgModule_hasDesc (it : Item) (sn : Option RTerm) (σ : KGState) (a b : RTerm)
    (h : ((a, CODE ++ "hasDescription", b) : RTerm × String × RTerm) ∈
      ((kgModule it sn σ).1).graph) :
    ((a, CODE ++ "hasDescription", b) : RTerm × String × RTerm) ∈ σ.graph := by
  revert h
  simp only [kgModule]
  split
  · split
    · split
      · intro h
        repeat
          first
          | exact h
          | replace h := mem_of_mem_insert_pred_ne h (by decide)
      · intro h
        repeat
          first
          | exact h
          | replace h := mem_of_mem_insert_pred_ne h (by decide)
    · intro h
      exact h
  · intro h
    exact h

theorem kgClassApi_hasDesc (it : Item) (sn mn : Option RTerm) (σ : KGState) (a b : RTerm)
    (h : ((a, CODE ++ "hasDescription", b) : RTerm × String × RTerm) ∈
      (kgClassApi it sn mn σ).graph) :
    ((a, CODE ++ "hasDescription", b) : RTerm × String × RTerm) ∈ σ.graph := by
  revert h
  simp only [kgClassApi]
  by_cases hty : it.type = "class"
  · rw [if_pos hty]
    by_cases hm : truthy it.module = false
    · rw [if_pos hm]
      cases hlk : List.lookup (if it.cls = some "Flask" ∨ it.cls = some "App"
          then "flask.app" else "UnknownModule") σ.module_map with
      | none =>
          cases sn with
          | none =>
              intro h
              repeat
                first
                | exact h
                | replace h := mem_of_mem_insert_pred_ne h (by decide)
          | some s1 =>
              intro h
              repeat
                first
                | exact h
                | replace h := mem_of_mem_insert_pred_ne h (by decide)
      | some v =>
          intro h
          repeat
            first
            | exact h
            | replace h := mem_of_mem_insert_pred_ne h (by decide)
    · rw [if_neg hm]
      cases mn with
      | none =>
          intro h
          repeat
            first
            | exact h
            | replace h := mem_of_mem_insert_pred_ne h (by decide)
      | some v =>
          intro h
          repeat
            first
            | exact h
            | replace h := mem_of_mem_insert_pred_ne h (by decide)
  · rw [if_neg hty]
    by_cases hty2 : it.type = "function" ∨ it.type = "member_function"
    · rw [if_pos hty2]
      by_cases hmf : it.type = "member_function" ∧ truthy it.cls
      · rw [if_pos hmf]
        cases hlk : List.lookup (it.cls.getD "") σ.class_map with
        | none =>
            intro h
            repeat
              first
              | exact h
              | replace h := mem_of_mem_insert_pred_ne h (by decide)
        | some v =>
            intro h
            repeat
              first
              | exact h
              | replace h := mem_of_mem_insert_pred_ne h (by decide)
      · rw [if_neg hmf]
        cases mn with
        | none =>
            intro h
            repeat
              first
              | exact h
              | replace h := mem_of_mem_insert_pred_ne h (by decide)
        | some v =>
            intro h
            repeat
              first
              | exact h
              | replace h := mem_of_mem_insert_pred_ne h (by decide)
    · rw [if_neg hty2]
      intro h
      exact h

theorem kgRet_hasDesc (it : Item) (σ : KGState) (a b : RTerm)
    (h : ((a, CODE ++ "hasDescription", b) : RTerm × String × RTerm) ∈ (kgRet it σ).graph) :
    ((a, CODE ++ "hasDescription", b) : RTerm × String × RTerm) ∈ σ.graph := by
  revert h
  simp only [kgRet]
  split
  · split
    · intro h
      repeat
        first
        | exact h
        | replace h := mem_of_mem_insert_pred_ne h (by decide)
    · intro h
      repeat
        first
        | exact h
        | replace h := mem_of_mem_insert_pred_ne h (by decide)
  · intro h
    exact h

theorem foldl_params_hasDesc (an : RTerm) (id0 : String) :
    ∀ (ps : List (String × Bool)) (g : Finset (RTerm × String × RTerm)) (a b : RTerm),
      ((a, CODE ++ "hasDescription", b) : RTerm × String × RTerm) ∈ ps.foldl (fun g q =>
        insert ((an, CODE ++ "hasParameter",
            uri_encode (CODE ++ "Parameter") (id0 ++ "_" ++ q.1)) : RTerm × String × RTerm)
          (insert ((uri_encode (CODE ++ "Parameter") (id0 ++ "_" ++ q.1), rdfsLabel,
              RTerm.lit (q.1 ++ " (optional=" ++ pyBoolRepr q.2 ++ ")")) : RTerm × String × RTerm)
            (insert ((uri_encode (CODE ++ "Parameter") (id0 ++ "_" ++ q.1), rdfType,
                RTerm.uri (CODE ++ "Parameter")) : RTerm × String × RTerm) g))) g →
      ((a, CODE ++ "hasDescription", b) : RTerm × String × RTerm) ∈ g := by
  intro ps
  induction ps with
  | nil =>
      intro g a b h
      exact h
  | cons q t ih =>
      intro g a b h
      rw [List.foldl_cons] at h
      have h2 := ih _ a b h
      exact mem_of_mem_insert_pred_ne (mem_of_mem_insert_pred_ne
        (mem_of_mem_insert_pred_ne h2 (by decide)) (by decide)) (by decide)

theorem kgParams_hasDesc (it : Item) (σ : KGState) (a b : RTerm)
    (h : ((a, CODE ++ "hasDescription", b) : RTerm × String × RTerm) ∈ (kgParams it σ).graph) :
    ((a, CODE ++ "hasDescription", b) : RTerm × String × RTerm) ∈ σ.graph := by
  revert h
  simp only [kgParams]
  split
  · split
    · intro h
      exact foldl_params_hasDesc _ it._id it.parameters σ.graph a b h
    · intro h
      exact h
  · intro h
    exact h

theorem kgDoc_hasDesc (it : Item) (σ : KGState) (a b : RTerm)
    (h : ((a, CODE ++ "hasDescription", b) : RTerm × String × RTerm) ∈ (kgDoc it σ).graph) :
    ((a, CODE ++ "hasDescription", b) : RTerm × String × RTerm) ∈ σ.graph ∨
      (truthy it.doc = true ∧
        (it.type = "function" ∨ it.type = "member_function" ∨ it.type = "class") ∧
        b = uri_encode (CODE ++ "Description") (it._id ++ "_desc")) := by
  revert h
  simp only [kgDoc]
  by_cases hd : truthy it.doc = true
  · rw [if_pos hd]
    by_cases ht1 : it.type = "function" ∨ it.type = "member_function"
    · rw [if_pos ht1]
      cases hlk : List.lookup it._id σ.api_map with
      | none =>
          intro h
          left
          repeat
            first
            | exact h
            | replace h := mem_of_mem_insert_pred_ne h (by decide)
      | some an =>
          intro h
          rcases Finset.mem_insert.mp h with h1 | h1
          · right
            refine ⟨hd, ?_, obj_of_triple_eq _ _ h1⟩
            rcases ht1 with h2 | h2
            · exact Or.inl h2
            · exact Or.inr (Or.inl h2)
          · left
            replace h := h1
            repeat
              first
              | exact h
              | replace h := mem_of_mem_insert_pred_ne h (by decide)
    · rw [if_neg ht1]
      by_cases ht2 : it.type = "class"
      · rw [if_pos ht2]
        cases hlk : List.lookup it._id σ.class_map with
        | none =>
            intro h
            left
            repeat
              first
              | exact h
              | replace h := mem_of_mem_insert_pred_ne h (by decide)
        | some cn =>
            intro h
            rcases Finset.mem_insert.mp h with h1 | h1
            · right
              exact ⟨hd, Or.inr (Or.inr ht2), obj_of_triple_eq _ _ h1⟩
            · left
              replace h := h1
              repeat
                first
                | exact h
                | replace h := mem_of_mem_insert_pred_ne h (by decide)
      · rw [if_neg ht2]
        intro h
        left
        repeat
          first
          | exact h
          | replace h := mem_of_mem_insert_pred_ne h (by decide)
  · rw [if_neg hd]
    intro h
    exact Or.inl h

theorem kgItem_hasDesc (l : String) (σ : KGState) (it : Item) (a b : RTerm)
    (h : ((a, CODE ++ "hasDescription", b) : RTerm × String × RTerm) ∈ (kgItem l σ it).graph) :
    ((a, CODE ++ "hasDescription", b) : RTerm × String × RTerm) ∈ σ.graph ∨
      (truthy it.doc = true ∧
        (it.type = "function" ∨ it.type = "member_function" ∨ it.type = "class") ∧
        b = uri_encode (CODE ++ "Description") (it._id ++ "_desc")) := by
  unfold kgItem at h
  have h5 := kgParams_hasDesc it _ a b h
  have h4 := kgRet_hasDesc it _ a b h5
  rcases kgDoc_hasDesc it _ a b h4 with h3 | hgen
  · have h2 := kgClassApi_hasDesc it _ _ _ a b h3
    have h1 := kgModule_hasDesc it _ _ a b h2
    exact Or.inl (kgScript_hasDesc l it σ a b h1)
  · exact Or.inr hgen

theorem kg_fold_hasDesc (l : String) :
    ∀ (items : List Item) (σ : KGState) (a b : RTerm),
      ((a, CODE ++ "hasDescription", b) : RTerm × String × RTerm) ∈
        (items.foldl (kgItem l) σ).graph →
      ((a, CODE ++ "hasDescription", b) : RTerm × String × RTerm) ∈ σ.graph ∨
        ∃ it ∈ items, truthy it.doc = true ∧
          (it.type = "function" ∨ it.type = "member_function" ∨ it.type = "class") ∧
          b = uri_encode (CODE ++ "Description") (it._id ++ "_desc") := by
  intro items
  induction items with
  | nil =>
      intro σ a b h
      exact Or.inl h
  | cons x t ih =>
      intro σ a b h
      rw [List.foldl_cons] at h
      rcases ih _ a b h with h1 | ⟨it2, hmem, hgen⟩
      · rcases kgItem_hasDesc l σ x a b h1 with h2 | hgen
        · exact Or.inl h2
        · exact Or.inr ⟨x, List.mem_cons_self x t, hgen⟩
      · exact Or.inr ⟨it2, List.mem_cons_of_mem x hmem, hgen⟩

/-- Every ontology declaration triple uses the label predicate. -/
theorem ontology_pred : ∀ t ∈ ontologyTriples, t.2.1 = rdfsLabel := by decide

theorem initKG_no_hasDesc (ln lib : String) (a b : RTerm) :
    ((a, CODE ++ "hasDescription", b) : RTerm × String × RTerm) ∉ (initKG ln lib).graph := by
  intro h
  simp only [initKG, Finset.mem_union, List.mem_toFinset, Finset.mem_insert,
    Finset.mem_singleton] at h
  have hne1 : (CODE ++ "hasDescription") ≠ rdfsLabel := by decide
  have hne2 : (CODE ++ "hasDescription") ≠ rdfType := by decide
  rcases h with h | h | h
  · exact absurd (ontology_pred _ h) hne1
  · exact absurd (pred_of_triple_eq _ _ h) hne2
  · exact absurd (pred_of_triple_eq _ _ h) hne1

/-- The module record and the colliding function record of the C10
example: a submodule `a.b` and a function `b` in module `a` both yield the
identifier "a.b". -/
def c10ModuleItem : Item := { type := "module", _id := "a.b", doc := some "d" }

/-- A function record with the same identifier as `c10ModuleItem`. -/
def c10FuncItem : Item := { type := "function", _id := "a.b", doc := some "d" }

/-- C10, counterexample: with a documented module record `a.b` and a
documented function record `a.b` in the same input — exactly what one
traversal produces for a submodule `a.b` and a function `b` of module `a` —
the module record's Description node IS attached in the resulting graph: the
function record attaches a hasDescription edge to the shared node
`a.b_desc`, so the node is not left unattached as the claim states. -/
theorem c10_counterexample :
    truthy c10ModuleItem.doc = true ∧ c10ModuleItem.type = "module" ∧
      ((uri_encode (CODE ++ "API") "a.b", CODE ++ "hasDescription",
        uri_encode (CODE ++ "Description") ("a.b" ++ "_desc")) ∈
      (build_knowledge_graph [c10ModuleItem, c10FuncItem] "Lib").graph) := by
  decide

/-- C10, amended: in the graph-serialization path, a record with non-empty
doc whose kind is neither class, function nor member_function gets a typed
Description entity, and processing that record adds no hasDescription edge;
provided no class, function or member_function record with non-empty doc in
the same input has the same sanitized description identifier, the
Description node has no incoming hasDescription edge in the resulting graph
(with such a colliding record the shared node does get attached — see the
counterexample). -/
theorem c10_amended (json_data : List Item) (library_name : String) (it : Item)
    (hmem : it ∈ json_data) (hdoc : truthy it.doc = true)
    (hty : ¬(it.type = "function" ∨ it.type = "member_function" ∨ it.type = "class"))
    (hcol : ∀ it2 ∈ json_data,
      (it2.type = "function" ∨ it2.type = "member_function" ∨ it2.type = "class") →
      truthy it2.doc = true →
      sanitizeId (it2._id ++ "_desc") ≠ sanitizeId (it._id ++ "_desc")) :
    ((uri_encode (CODE ++ "Description") (it._id ++ "_desc"), rdfType,
        RTerm.uri (CODE ++ "Description")) ∈
      (build_knowledge_graph json_data library_name).graph) ∧
      ∀ a : RTerm, ((a, CODE ++ "hasDescription",
          uri_encode (CODE ++ "Description") (it._id ++ "_desc")) : RTerm × String × RTerm) ∉
        (build_knowledge_graph json_data library_name).graph := by
  constructor
  · simp only [build_knowledge_graph]
    obtain ⟨l1, l2, hs⟩ := List.append_of_mem hmem
    subst hs
    rw [List.foldl_append, List.foldl_cons]
    refine kg_fold_mono _ l2 _ ?_
    unfold kgItem
    refine kgParams_mono it _ (kgRet_mono it _ ?_)
    exact kgDoc_adds_descType it _ hdoc
  · intro a h
    simp only [build_knowledge_graph] at h
    rcases kg_fold_hasDesc _ json_data _ a _ h with h1 | ⟨it2, hmem2, hd2, hk2, hb⟩
    · exact initKG_no_hasDesc _ _ _ _ h1
    · have hsan : sanitizeId (it2._id ++ "_desc") = sanitizeId (it._id ++ "_desc") := by
        unfold uri_encode at hb
        injection hb with hb2
        exact (string_append_cancel_left _ _ _ hb2).symm
      exact hcol it2 hmem2 hk2 hd2 hsan

/-- C10, witness: a lone documented module record `a.b`: its Description
node is typed and has no incoming hasDescription edge, exemplified at the
subject node of the module namespace. -/
theorem c10_witness :
    ((uri_encode (CODE ++ "Description") ("a.b" ++ "_desc"), rdfType,
        RTerm.uri (CODE ++ "Description")) ∈
      (build_knowledge_graph [c10ModuleItem] "Lib").graph) ∧
      ((RTerm.uri "x", CODE ++ "hasDescription",
        uri_encode (CODE ++ "Description") ("a.b" ++ "_desc")) ∉
        (build_knowledge_graph [c10ModuleItem] "Lib").graph) := by
  have h := c10_amended [c10ModuleItem] "Lib" c10ModuleItem (List.Mem.head _) (by decide)
    (by decide) ?_
  · exact ⟨by simpa [c10ModuleItem] using h.1,
      by simpa [c10ModuleItem] using h.2 (RTerm.uri "x")⟩
  · intro it2 hm2 hk2 hd2
    rcases List.mem_singleton.mp hm2 with rfl
    exact absurd hk2 (by decide)
